import Mathlib

/-!
Aqua simulator (`sim.c`): shallow embedding and verified properties.

Machine integers are modelled by `Nat` (unsigned, bit patterns) and `Int`
(signed values) with explicit reductions:

* `u32 x` is the conversion of an integer to `uint32_t` (reduction modulo `2^32`);
* `i32 n` is the conversion of a bit pattern to `int32_t` (two's complement);
* `wrap32 x` is the value of an `int` (32-bit) arithmetic result; signed overflow is
  taken to wrap around in two's complement, and `>>` on a signed operand is the
  arithmetic (sign-filling) shift, as on the compilers the simulator is built with.

`error(...)` prints a message and calls `exit(1)`; it is modelled by `Except.error` in
the pure `alu` and by the outcome `Outcome.fatal` elsewhere.  An access to `mem` outside
the allocated block is undefined in C and is modelled by the separate outcome
`Outcome.undef`.

`mem` is an array of 32-bit words; the loader writes it byte by byte, and the bytes of a
word follow the little-endian layout of the host.  The loop of `runsim` is cut after a
given number of passes (`loop_n`), so that both a run that stops and a run that does not
can be stated.
-/

namespace Aqua

/-! ## Outcomes -/

/-- The messages of `error(...)` in `sim.c`, with their arguments. -/
inductive Fatal where
  /-- Message "unknown integer arithmetic instruction: func1 = %d". -/
  | unknown_arith (func1 : Nat)
  /-- Message "unknown comparation instruction: func1 = %d". -/
  | unknown_compare (func1 : Nat)
  /-- The `assert(false)` of `alu`. -/
  | assert_false
  /-- Message "load: address must be a multiple of 4: 0x%08x". -/
  | misaligned (addr : Nat)
  /-- Message "exceeded %dMB limit: 0x%08x". -/
  | exceeded (mb : Nat) (addr : Nat)
  /-- Message "SYS opcode unsupported for now". -/
  | sys_unsupported
  /-- Message "unknown opcode = %d". -/
  | unknown_opcode (opcode : Nat)
  /-- Message "program counter out of range". -/
  | pc_out_of_range
  /-- Message "load_file: reached EOF (actual size is less than header)". -/
  | reached_eof
  /-- Message "load_file: input file remained (actual size is more than header)". -/
  | file_remained
  deriving DecidableEq, Repr

/-! ## Machine integers -/

/-- Conversion to `uint32_t`. -/
def u32 (x : Int) : Nat := (x % 4294967296).toNat

/-- Conversion to `uint64_t`. -/
def u64 (x : Int) : Nat := (x % 18446744073709551616).toNat

/-- Conversion of a 32-bit pattern to `int32_t`. -/
def i32 (n : Nat) : Int :=
  if n % 4294967296 < 2147483648 then ((n % 4294967296 : Nat) : Int)
  else ((n % 4294967296 : Nat) : Int) - 4294967296

/-- Value of a 32-bit signed arithmetic result (two's-complement wrap-around). -/
def wrap32 (x : Int) : Int := i32 (u32 x)

/-- Left shift of an `int32_t` by a constant: `x << n`. -/
def shl32 (x : Int) (n : Nat) : Int := wrap32 (x * 2 ^ n)

/-- Right shift of an `int32_t`: `x >> n` (arithmetic). -/
def sar32 (x : Int) (n : Nat) : Int := x >>> n

/-! ## Constants -/

/-- Macro `PP_HEX2BIN(b)`: reads the octal digits of `b` as binary digits. -/
def PP_HEX2BIN (b : Nat) : Nat :=
  ((b &&& (1 <<< 0)) >>> 0) + ((b &&& (1 <<< 3)) >>> 2) + ((b &&& (1 <<< 6)) >>> 4) +
  ((b &&& (1 <<< 9)) >>> 6) + ((b &&& (1 <<< 12)) >>> 8) + ((b &&& (1 <<< 15)) >>> 10) +
  ((b &&& (1 <<< 18)) >>> 12) + ((b &&& (1 <<< 21)) >>> 14)

def HALT_CODE : Nat := 0xffffffff

def ALU_IA : Nat := 0
def ALU_C : Nat := 1

def ADD : Nat := PP_HEX2BIN 0o0000
def SUB : Nat := PP_HEX2BIN 0o0001
def SLL : Nat := PP_HEX2BIN 0o0010
def SRL : Nat := PP_HEX2BIN 0o0011
def SRA : Nat := PP_HEX2BIN 0o0100
def AND : Nat := PP_HEX2BIN 0o0101
def OR : Nat := PP_HEX2BIN 0o0110
def XOR : Nat := PP_HEX2BIN 0o0111
def ADDX4 : Nat := PP_HEX2BIN 0o1000
def SUBX4 : Nat := PP_HEX2BIN 0o1001
def MUL : Nat := PP_HEX2BIN 0o1100
def MULH : Nat := PP_HEX2BIN 0o1101

def EQ : Nat := PP_HEX2BIN 0o0000
def NE : Nat := PP_HEX2BIN 0o0001
def LT : Nat := PP_HEX2BIN 0o0010
def LE : Nat := PP_HEX2BIN 0o0011
def ULT : Nat := PP_HEX2BIN 0o0100
def ULE : Nat := PP_HEX2BIN 0o0101
def GT : Nat := PP_HEX2BIN 0o0110
def UGT : Nat := PP_HEX2BIN 0o0111

def IAI : Nat := PP_HEX2BIN 0o000000
def IAR : Nat := PP_HEX2BIN 0o000001
def CI : Nat := PP_HEX2BIN 0o000110
def CR : Nat := PP_HEX2BIN 0o000111
def LI : Nat := PP_HEX2BIN 0o010010
def LIH : Nat := PP_HEX2BIN 0o010011
def LD : Nat := PP_HEX2BIN 0o011000
def ST : Nat := PP_HEX2BIN 0o011001
def JL : Nat := PP_HEX2BIN 0o100000
def JR : Nat := PP_HEX2BIN 0o100001
def JEQ : Nat := PP_HEX2BIN 0o101000
def JNE : Nat := PP_HEX2BIN 0o101001
def JLT : Nat := PP_HEX2BIN 0o101010
def JLE : Nat := PP_HEX2BIN 0o101011
def JGT : Nat := PP_HEX2BIN 0o101100
def JGE : Nat := PP_HEX2BIN 0o101101
def SYS : Nat := PP_HEX2BIN 0o110000

/-! ## The ALU -/

/-- Function `alu(type, func1, a, b)`; it touches no global, and `.error e` is a call of
`error` with message `e`.  The operands are `int32_t` values; `ua`, `ub` are
their `uint32_t` conversions and `u64a`, `u64b` their (sign-extending) `uint64_t`
conversions.  The bitwise operations act on the two's-complement bit patterns. -/
def alu (type : Nat) (func1 : Nat) (a b : Int) : Except Fatal Nat :=
  let ua := u32 a
  let ub := u32 b
  let u64a := u64 a
  let u64b := u64 b
  if type = ALU_IA then
    if func1 = ADD then .ok (u32 (wrap32 (a + b)))
    else if func1 = SUB then .ok (u32 (wrap32 (a - b)))
    else if func1 = SLL then .ok ((ua <<< (ub &&& 31)) % 4294967296)
    else if func1 = SRL then .ok (ua >>> (ub &&& 31))
    else if func1 = SRA then .ok (u32 (sar32 a (ub &&& 31)))
    else if func1 = AND then .ok (ua &&& ub)
    else if func1 = OR then .ok (ua ||| ub)
    else if func1 = XOR then .ok (ua ^^^ ub)
    else if func1 = ADDX4 then .ok (u32 (wrap32 (a + wrap32 (b * 4))))
    else if func1 = SUBX4 then .ok (u32 (wrap32 (a - wrap32 (b * 4))))
    else if func1 = MUL then .ok (u32 (wrap32 (a * b)))
    else if func1 = MULH then .ok ((((u64a * u64b) % 18446744073709551616) >>> 32) % 4294967296)
    else .error (.unknown_arith func1)
  else if type = ALU_C then
    if func1 = EQ then .ok (if a = b then 1 else 0)
    else if func1 = NE then .ok (if a ≠ b then 1 else 0)
    else if func1 = LT then .ok (if a < b then 1 else 0)
    else if func1 = LE then .ok (if a ≤ b then 1 else 0)
    else if func1 = ULT then .ok (if ua < ub then 1 else 0)
    else if func1 = ULE then .ok (if ua ≤ ub then 1 else 0)
    else if func1 = GT then .ok (if a > b then 1 else 0)
    else if func1 = UGT then .ok (if ua ≥ ub then 1 else 0)
    else .error (.unknown_compare func1)
  else .error .assert_false

/-! ## Instruction fields (the first lines of `exec`) -/

/-- Field `opcode = inst >> 26`. -/
def opcode (inst : Nat) : Nat := inst >>> 26

/-- Field `func1 = inst & 0xf`. -/
def func1 (inst : Nat) : Nat := inst &&& 0xf

/-- Field `rx = (inst >> 21) & 31`. -/
def rx (inst : Nat) : Nat := (inst >>> 21) &&& 31

/-- Field `ra = (inst >> 16) & 31`. -/
def ra (inst : Nat) : Nat := (inst >>> 16) &&& 31

/-- Field `rb = (inst >> 11) & 31`. -/
def rb (inst : Nat) : Nat := (inst >>> 11) &&& 31

/-- Immediate `imm_n = (((int32_t)inst) << 11) >> 11`. -/
def imm_n (inst : Nat) : Int := sar32 (shl32 (i32 inst) 11) 11

/-- Immediate `imm_c = ((((int32_t)inst) << 6) >> 11) + (inst & 0xffff)`: the sum of an
`int` and a `uint32_t` is computed in `uint32_t` and stored in an `int32_t`. -/
def imm_c (inst : Nat) : Int :=
  i32 ((u32 (sar32 (shl32 (i32 inst) 6) 11) + (inst &&& 0xffff)) % 4294967296)

/-- Immediate `imm_l = (((int32_t)inst) << 16) >> 16`. -/
def imm_l (inst : Nat) : Int := sar32 (shl32 (i32 inst) 16) 16

/-- Immediate `imm_s = ((((int32_t)inst) << 6) >> 16) + (inst & 0x7ff)`. -/
def imm_s (inst : Nat) : Int :=
  i32 ((u32 (sar32 (shl32 (i32 inst) 6) 16) + (inst &&& 0x7ff)) % 4294967296)

/-- Immediate `imm_i = (((int32_t)inst) << 16) >> 20`. -/
def imm_i (inst : Nat) : Int := sar32 (shl32 (i32 inst) 16) 20

/-! ## Machine state -/

/-- The global variables of the simulator: `reg[32]`, the block `mem` of `mem_size`
bytes seen as an array of 32-bit words, `mem_size`, `pc` and `inst_cnt`. -/
structure Machine where
  reg : Nat → Nat
  mem : Nat → Nat
  mem_size : Nat
  pc : Nat
  inst_cnt : Int

/-- Result of running a stateful piece of the simulator: it returns `x`; or it stops in
`error` with message `e`, the globals being `s` at that moment (what `print_env` then
shows); or it accesses `mem` out of bounds. -/
inductive Outcome (α : Type) where
  | done (x : α)
  | fatal (e : Fatal) (s : Machine)
  | undef

/-- The outcome is a fatal error. -/
def Outcome.isFatal {α : Type} : Outcome α → Bool
  | .fatal _ _ => true
  | _ => false

/-- Word index `i` of `mem` lies inside the allocated block of `mem_size` bytes. -/
def in_mem (s : Machine) (i : Int) : Prop := 0 ≤ i ∧ 4 * i + 4 ≤ (s.mem_size : Int)

instance (s : Machine) (i : Int) : Decidable (in_mem s i) := by
  unfold in_mem; infer_instance

/-- Function `check_addr(addr)`. -/
def check_addr (s : Machine) (addr : Nat) : Outcome Machine :=
  if addr &&& 3 ≠ 0 then .fatal (.misaligned addr) s
  else if addr ≥ s.mem_size then .fatal (.exceeded (s.mem_size >>> 20) addr) s
  else .done s

/-- Assignment `reg[rx] = v`. -/
def set_reg (s : Machine) (r : Nat) (v : Nat) : Machine :=
  { s with reg := Function.update s.reg r v }

/-- Assignment `mem[i] = v` for an index inside the block. -/
def set_mem (s : Machine) (i : Nat) (v : Nat) : Machine :=
  { s with mem := Function.update s.mem i v }

/-- Assignment `pc = v`. -/
def set_pc (s : Machine) (v : Nat) : Machine :=
  { s with pc := v }

/-- A conditional branch: `if (cond) pc = pc + 4 + imm_c * 4; return 1;`. -/
def branch (s : Machine) (inst : Nat) (cond : Bool) : Outcome (Machine × Nat) :=
  if cond then
    .done (set_pc s ((s.pc + 4 + u32 (wrap32 (imm_c inst * 4))) % 4294967296), 1)
  else .done (s, 1)

/-- Statement `reg[rx] = alu(type, func1, a, b); break;` followed by `return 0`. -/
def exec_alu (s : Machine) (inst : Nat) (type : Nat) (a b : Int) : Outcome (Machine × Nat) :=
  match alu type (func1 inst) a b with
  | .ok v => .done (set_reg s (rx inst) v, 0)
  | .error e => .fatal e s

/-- Function `exec(inst)`: returns the new state and the returned `int`
(1 when a jump instruction is executed). -/
def exec (s : Machine) (inst : Nat) : Outcome (Machine × Nat) :=
  let a := i32 (s.reg (ra inst))
  let b := i32 (s.reg (rb inst))
  if opcode inst = IAI then exec_alu s inst ALU_IA a (imm_i inst)
  else if opcode inst = IAR then exec_alu s inst ALU_IA a b
  else if opcode inst = CI then exec_alu s inst ALU_C a (imm_i inst)
  else if opcode inst = CR then exec_alu s inst ALU_C a b
  else if opcode inst = LI then .done (set_reg s (rx inst) (u32 (imm_n inst)), 0)
  else if opcode inst = LIH then .done (set_reg s (rx inst) (u32 (shl32 (imm_n inst) 11)), 0)
  else if opcode inst = LD then
    match check_addr s (u32 (wrap32 (a + imm_l inst))) with
    | .done s1 =>
      let i := sar32 (wrap32 (a + imm_l inst)) 2
      if in_mem s1 i then .done (set_reg s1 (rx inst) (s1.mem i.toNat), 0) else .undef
    | .fatal e s1 => .fatal e s1
    | .undef => .undef
  else if opcode inst = ST then
    match check_addr s (u32 (wrap32 (a + imm_s inst))) with
    | .done s1 =>
      let i := sar32 (wrap32 (a + imm_l inst)) 2
      if in_mem s1 i then .done (set_mem s1 i.toNat (u32 b), 0) else .undef
    | .fatal e s1 => .fatal e s1
    | .undef => .undef
  else if opcode inst = JL then
    .done (set_pc (set_reg s (rx inst) ((s.pc + 4) % 4294967296))
      ((s.pc + 4 + u32 (imm_n inst)) % 4294967296), 1)
  else if opcode inst = JR then
    .done (set_pc (set_reg s (rx inst) ((s.pc + 4) % 4294967296)) (u32 a), 1)
  else if opcode inst = JEQ then branch s inst (decide (a = 0))
  else if opcode inst = JNE then branch s inst (decide (a ≠ 0))
  else if opcode inst = JLT then branch s inst (decide (a < 0))
  else if opcode inst = JLE then branch s inst (decide (a ≤ 0))
  else if opcode inst = JGT then branch s inst (decide (a > 0))
  else if opcode inst = JGE then branch s inst (decide (a ≥ 0))
  else if opcode inst = SYS then .fatal .sys_unsupported s
  else .fatal (.unknown_opcode (opcode inst)) s

/-! ## The run loop -/

/-- The two ways a pass through the body of `while (1)` in `runsim` ends. -/
inductive Iter where
  /-- The `break` taken on the halt code. -/
  | brk (s : Machine)
  /-- The end of the body is reached: the loop goes on. -/
  | next (s : Machine)

/-- Body of the `while (1)` loop of `runsim`, for `debug_enabled = 0` (the debug hook is
not part of the simulated machine).  `inst_cnt` is a `long long`; no run reaches `2^63`
steps and the counter is a plain integer here. -/
def loop_body (s : Machine) : Outcome Iter :=
  if s.pc ≥ s.mem_size then .fatal .pc_out_of_range s
  else if in_mem s ((s.pc >>> 2 : Nat) : Int) then
    if s.mem (s.pc >>> 2) = HALT_CODE then .done (.brk s)
    else
      match exec s (s.mem (s.pc >>> 2)) with
      | .done (s1, r) =>
        let s2 := if r = 0 then set_pc s1 ((s1.pc + 4) % 4294967296) else s1
        .done (.next { s2 with inst_cnt := s2.inst_cnt + 1 })
      | .fatal e s1 => .fatal e s1
      | .undef => .undef
  else Outcome.undef

/-- The first `n` passes of the loop of `runsim`: `.brk s` when the loop has been left
within them in state `s`, `.next s` when it is still running, in state `s`. -/
def loop_n : Nat → Machine → Outcome Iter
  | 0, s => .done (.next s)
  | n + 1, s =>
    match loop_body s with
    | .done (.next s1) => loop_n n s1
    | r => r

/-! ## Initialisation and the loader -/

/-- The globals as the C initialisers leave them (before `parse_cmd`). -/
def globals : Machine :=
  { reg := fun _ => 0, mem := fun _ => 0, mem_size := 0x400000, pc := 0, inst_cnt := 0 }

/-- Function `init_env()`.  `fresh` is the content of the block `malloc` returns (words of
32 bits); `boot_test` and `entry_point` are the globals set by `parse_cmd`. -/
def init_env (boot_test : Bool) (entry_point : Nat) (fresh : Nat → Nat) (s : Machine) :
    Machine :=
  let s1 : Machine := { s with mem := fun i => fresh i % 4294967296 }
  let s2 : Machine :=
    if boot_test = false then set_reg (set_reg s1 31 s1.mem_size) 30 s1.mem_size else s1
  { s2 with pc := entry_point, inst_cnt := 0 }

/-- Byte `k` (0..3) of a 32-bit word, in the little-endian layout of the host. -/
def byte_of (w : Nat) (k : Nat) : Nat := w / 256 ^ k % 256

/-- Read of `*((uint8_t*)mem + addr)`. -/
def get_byte (s : Machine) (addr : Nat) : Nat := byte_of (s.mem (addr / 4)) (addr % 4)

/-- Store `*((uint8_t*)mem + addr) = c`: byte `addr % 4` of word `addr / 4` is replaced. -/
def set_byte (s : Machine) (addr : Nat) (c : Nat) : Machine :=
  set_mem s (addr / 4)
    (s.mem (addr / 4) - byte_of (s.mem (addr / 4)) (addr % 4) * 256 ^ (addr % 4)
      + c % 256 * 256 ^ (addr % 4))

/-- Call `fgetc(fp)` on the rest of the file: the next byte, or `EOF = -1`. -/
def fgetc (fp : List (Fin 256)) : Int × List (Fin 256) :=
  match fp with
  | [] => (-1, [])
  | c :: rest => ((c.val : Int), rest)

/-- Loop `for (int i = 0; i < 32; i += 8) prog_size += fgetc(fp) << i;` from
`prog_size = 0`: the value of `prog_size` and the rest of the file. -/
def read_prog_size (fp : List (Fin 256)) : Nat × List (Fin 256) :=
  [0, 8, 16, 24].foldl
    (fun (acc : Nat × List (Fin 256)) (i : Nat) =>
      ((acc.1 + u32 (shl32 (fgetc acc.2).1 i)) % 4294967296, (fgetc acc.2).2))
    (0, fp)

/-- Loop `for (uint32_t i = ...; i < prog_size; ++i)` of `load_file` with `k` passes left
to do: each reads a byte, stops with an error at `EOF`, and stores the byte at
`(uint8_t*)mem + entry_point + i`. -/
def copy_loop (entry_point : Nat) :
    Nat → Nat → List (Fin 256) → Machine → Outcome (Machine × List (Fin 256))
  | 0, _, fp, s => .done (s, fp)
  | k + 1, i, fp, s =>
    match fp with
    | [] => .fatal .reached_eof s
    | c :: rest =>
      if entry_point + i < s.mem_size then
        copy_loop entry_point k (i + 1) rest (set_byte s (entry_point + i) c.val)
      else Outcome.undef

/-- Function `load_file()` on a file that `fopen` has opened, of content `file`. -/
def load_file (entry_point : Nat) (file : List (Fin 256)) (s : Machine) : Outcome Machine :=
  match copy_loop entry_point (read_prog_size file).1 0 (read_prog_size file).2 s with
  | .done (s1, fp1) =>
    if (fgetc fp1).1 ≠ -1 then .fatal .file_remained s1 else .done s1
  | .fatal e s1 => .fatal e s1
  | .undef => Outcome.undef

/-- Function `runsim()`, its loop cut after `n` passes. -/
def runsim (n : Nat) (boot_test : Bool) (entry_point : Nat) (fresh : Nat → Nat)
    (file : List (Fin 256)) (s : Machine) : Outcome Iter :=
  match load_file entry_point file (init_env boot_test entry_point fresh s) with
  | .done s1 => loop_n n s1
  | .fatal e s1 => .fatal e s1
  | .undef => Outcome.undef

/-! ## Concrete states used in the evaluations -/

/-- Default memory size, `reg[0] = 0x3FFFF8`, every other register 0. -/
def st_high_base : Machine :=
  { reg := fun r => if r = 0 then 0x3FFFF8 else 0, mem := fun _ => 0,
    mem_size := 0x400000, pc := 0x2000, inst_cnt := 0 }

/-- Default memory size, `reg[1] = 7`, every other register 0. -/
def st_low_base : Machine :=
  { reg := fun r => if r = 1 then 7 else 0, mem := fun _ => 0,
    mem_size := 0x400000, pc := 0x2000, inst_cnt := 0 }

/-- Memory of 3072 MB, `reg[0] = 0x80000000`, every other register 0. -/
def st_large_mem : Machine :=
  { reg := fun r => if r = 0 then 0x80000000 else 0, mem := fun _ => 0,
    mem_size := 0xC0000000, pc := 0x2000, inst_cnt := 0 }

/-- Registers all 0 except `reg[3] = 0x1236`, pc = 0x2000. -/
def st_jump : Machine :=
  { reg := fun r => if r = 3 then 0x1236 else 0, mem := fun _ => 0,
    mem_size := 0x400000, pc := 0x2000, inst_cnt := 0 }

/-- The opcode is none of the 17 values of the opcode table. -/
def unknown_op (w : Nat) : Prop :=
  opcode w ∉ [0, 1, 6, 7, 18, 19, 24, 25, 32, 33, 40, 41, 42, 43, 44, 45, 48]

instance (w : Nat) : Decidable (unknown_op w) := by
  unfold unknown_op; infer_instance

/-- Default memory size, pc = 0x2000, the word LI r1, 5 (0x48200005) at byte address
0x2000 and the halt code everywhere else. -/
def st_li_prog : Machine :=
  { reg := fun _ => 0, mem := fun i => if i = 0x800 then 0x48200005 else 0xFFFFFFFF,
    mem_size := 0x400000, pc := 0x2000, inst_cnt := 0 }

/-- The four bytes of a 32-bit word in a program file (little-endian, as the loader copies
them into the memory of the little-endian host). -/
def le_bytes (w : Nat) : List (Fin 256) :=
  [⟨w % 256, Nat.mod_lt _ (by decide)⟩, ⟨w / 256 % 256, Nat.mod_lt _ (by decide)⟩,
   ⟨w / 65536 % 256, Nat.mod_lt _ (by decide)⟩, ⟨w / 16777216 % 256, Nat.mod_lt _ (by decide)⟩]

/-- Program file holding the two words `w0`, `w1`: the length prefix 8, then the words. -/
def image2 (w0 w1 : Nat) : List (Fin 256) :=
  8 :: 0 :: 0 :: 0 :: (le_bytes w0 ++ le_bytes w1)

/-! ## Basic facts on the integer conversions -/

theorem u32_lt (x : Int) : u32 x < 4294967296 := by
  unfold u32; omega

theorem u32_cast (x : Int) : ((u32 x : Nat) : Int) = x % 4294967296 := by
  unfold u32; omega

theorem u32_wrap32 (x : Int) : u32 (wrap32 x) = u32 x := by
  unfold wrap32 i32 u32; split <;> omega

theorem wrap32_range (x : Int) : -2147483648 ≤ wrap32 x ∧ wrap32 x < 2147483648 := by
  unfold wrap32 i32 u32; split <;> omega

theorem wrap32_emod (x : Int) : wrap32 x % 4294967296 = x % 4294967296 := by
  unfold wrap32 i32 u32; split <;> omega

theorem u32_congr {x y : Int} (h : x % 4294967296 = y % 4294967296) : u32 x = u32 y := by
  unfold u32; rw [h]

theorem func_vals :
    ADD = 0 ∧ SUB = 1 ∧ SLL = 2 ∧ SRL = 3 ∧ SRA = 4 ∧ AND = 5 ∧ OR = 6 ∧ XOR = 7 ∧
    ADDX4 = 8 ∧ SUBX4 = 9 ∧ MUL = 12 ∧ MULH = 13 := by decide

theorem cmp_vals :
    EQ = 0 ∧ NE = 1 ∧ LT = 2 ∧ LE = 3 ∧ ULT = 4 ∧ ULE = 5 ∧ GT = 6 ∧ UGT = 7 := by decide

theorem opcode_vals :
    IAI = 0 ∧ IAR = 1 ∧ CI = 6 ∧ CR = 7 ∧ LI = 18 ∧ LIH = 19 ∧ LD = 24 ∧ ST = 25 ∧
    JL = 32 ∧ JR = 33 ∧ JEQ = 40 ∧ JNE = 41 ∧ JLT = 42 ∧ JLE = 43 ∧ JGT = 44 ∧ JGE = 45 ∧
    SYS = 48 := by decide

theorem and_31 (x : Nat) : x &&& 31 = x % 32 := Nat.and_pow_two_sub_one_eq_mod x 5

theorem u32_add_mul_32 (b k : Int) : u32 (b + 32 * k) % 32 = u32 b % 32 := by
  unfold u32; omega

theorem sar32_eq_div (x : Int) (n : Nat) : sar32 x n = x / 2 ^ n := by
  unfold sar32
  rw [Int.shiftRight_eq_div_pow]
  norm_cast

/-! ## C1: wrap-around arithmetic -/

/-- C1: for all operands, the arithmetic functions ADD (0), SUB (1), MUL (12), ADDX4 (8)
and SUBX4 (9) of the integer unit never fail and return the exact integer result
reduced modulo 2^32; in particular ADD(0x7FFFFFFF, 1) = 0x80000000 and ADDX4(8, 3) = 20. -/
theorem alu_arith_wraps (a b : Int) :
    alu ALU_IA 0 a b = .ok ((a + b) % 4294967296).toNat ∧
    alu ALU_IA 1 a b = .ok ((a - b) % 4294967296).toNat ∧
    alu ALU_IA 12 a b = .ok ((a * b) % 4294967296).toNat ∧
    alu ALU_IA 8 a b = .ok ((a + 4 * b) % 4294967296).toNat ∧
    alu ALU_IA 9 a b = .ok ((a - 4 * b) % 4294967296).toNat ∧
    alu ALU_IA 0 0x7FFFFFFF 1 = .ok 0x80000000 ∧
    alu ALU_IA 8 8 3 = .ok 20 := by
  have hv := func_vals
  obtain ⟨h0, h1, h2, h3, h4, h5, h6, h7, h8, h9, h12, h13⟩ := hv
  have hadd : ∀ x y : Int, alu ALU_IA 0 x y = .ok ((x + y) % 4294967296).toNat := by
    intro x y
    simp [alu, h0, u32_wrap32]
    rfl
  have hx4 : ∀ x y : Int, alu ALU_IA 8 x y = .ok ((x + 4 * y) % 4294967296).toNat := by
    intro x y
    simp only [alu, h0, h1, h2, h3, h4, h5, h6, h7, h8, if_true, u32_wrap32]
    simp
    apply u32_congr
    have := wrap32_emod (y * 4)
    omega
  refine ⟨hadd a b, ?_, ?_, hx4 a b, ?_, ?_, ?_⟩
  · simp [alu, h0, h1, u32_wrap32]
    rfl
  · simp [alu, h0, h1, h2, h3, h4, h5, h6, h7, h8, h9, h12, u32_wrap32]
    rfl
  · simp only [alu, h0, h1, h2, h3, h4, h5, h6, h7, h8, h9, if_true, u32_wrap32]
    simp
    apply u32_congr
    have := wrap32_emod (b * 4)
    omega
  · rw [hadd]; rfl
  · rw [hx4]; rfl

/-! ## C2: high word of the signed product -/

/-- C2: for all signed operands, MULH (function code 13) of the integer unit returns the
high 32 bits of the signed 64-bit product, floor(a*b / 2^32) reduced modulo 2^32; in
particular MULH(-1, -1) = 0 and MULH(0x7FFFFFFF, 0x7FFFFFFF) = 0x3FFFFFFF. -/
theorem alu_mulh_high_word (a b : Int) :
    alu ALU_IA 13 a b = .ok ((a * b / 4294967296) % 4294967296).toNat ∧
    alu ALU_IA 13 (-1) (-1) = .ok 0 ∧
    alu ALU_IA 13 0x7FFFFFFF 0x7FFFFFFF = .ok 0x3FFFFFFF := by
  obtain ⟨h0, h1, h2, h3, h4, h5, h6, h7, h8, h9, h12, h13⟩ := func_vals
  have key : ∀ x y : Int,
      alu ALU_IA 13 x y = .ok ((x * y / 4294967296) % 4294967296).toNat := by
    intro x y
    simp only [alu, h0, h1, h2, h3, h4, h5, h6, h7, h8, h9, h12, h13, if_true]
    simp only [show (13 : Nat) = 0 ↔ False by decide, show (13 : Nat) = 1 ↔ False by decide,
      show (13 : Nat) = 2 ↔ False by decide, show (13 : Nat) = 3 ↔ False by decide,
      show (13 : Nat) = 4 ↔ False by decide, show (13 : Nat) = 5 ↔ False by decide,
      show (13 : Nat) = 6 ↔ False by decide, show (13 : Nat) = 7 ↔ False by decide,
      show (13 : Nat) = 8 ↔ False by decide, show (13 : Nat) = 9 ↔ False by decide,
      show (13 : Nat) = 12 ↔ False by decide, if_false]
    congr 1
    rw [Nat.shiftRight_eq_div_pow]
    have hp : (((u64 x * u64 y % 18446744073709551616 : Nat) : Int))
        = (x * y) % 18446744073709551616 := by
      have hx : ((u64 x : Nat) : Int) = x % 18446744073709551616 := by unfold u64; omega
      have hy : ((u64 y : Nat) : Int) = y % 18446744073709551616 := by unfold u64; omega
      push_cast
      rw [hx, hy, ← Int.mul_emod]
    generalize u64 x * u64 y % 18446744073709551616 = n at hp
    generalize x * y = p at hp
    omega
  refine ⟨key a b, ?_, ?_⟩
  · rw [key]; rfl
  · rw [key]; rfl

/-! ## C3: shifts -/

theorem sll_eq (a : Int) (s : Nat) :
    (u32 a <<< s) % 4294967296 = ((a * 2 ^ s) % 4294967296).toNat := by
  rw [Nat.shiftLeft_eq]
  have h : (((u32 a * 2 ^ s % 4294967296 : Nat)) : Int) = (a * 2 ^ s) % 4294967296 := by
    push_cast
    rw [u32_cast, Int.mul_emod, Int.emod_emod, ← Int.mul_emod]
  omega

/-- C3: for all operands, SLL (2), SRL (3) and SRA (4) shift by the distance
s = b mod 32 (b read as unsigned): SLL gives (a * 2^s) mod 2^32, SRL gives
floor(ua / 2^s) for the unsigned reading ua of a, SRA gives floor(a / 2^s) reduced modulo
2^32 (the division of integers by the positive 2^s rounds down).  Shift amounts that
differ by a multiple of 32 give the same result, and shifting by 33 is shifting by 1. -/
theorem alu_shift_distance (a b k : Int) :
    alu ALU_IA 2 a b = .ok ((a * 2 ^ (u32 b % 32)) % 4294967296).toNat ∧
    alu ALU_IA 3 a b = .ok (u32 a / 2 ^ (u32 b % 32)) ∧
    alu ALU_IA 4 a b = .ok ((a / 2 ^ (u32 b % 32)) % 4294967296).toNat ∧
    alu ALU_IA 2 a (b + 32 * k) = alu ALU_IA 2 a b ∧
    alu ALU_IA 3 a (b + 32 * k) = alu ALU_IA 3 a b ∧
    alu ALU_IA 4 a (b + 32 * k) = alu ALU_IA 4 a b ∧
    alu ALU_IA 2 a 33 = alu ALU_IA 2 a 1 ∧
    alu ALU_IA 3 a 33 = alu ALU_IA 3 a 1 ∧
    alu ALU_IA 4 a 33 = alu ALU_IA 4 a 1 := by
  obtain ⟨h0, h1, h2, h3, h4, h5, h6, h7, h8, h9, h12, h13⟩ := func_vals
  have hsll : ∀ x y : Int,
      alu ALU_IA 2 x y = .ok ((x * 2 ^ (u32 y % 32)) % 4294967296).toNat := by
    intro x y
    simp [alu, h0, h1, h2, and_31, sll_eq]
  have hsrl : ∀ x y : Int, alu ALU_IA 3 x y = .ok (u32 x / 2 ^ (u32 y % 32)) := by
    intro x y
    simp [alu, h0, h1, h2, h3, and_31, Nat.shiftRight_eq_div_pow]
  have hsra : ∀ x y : Int,
      alu ALU_IA 4 x y = .ok ((x / 2 ^ (u32 y % 32)) % 4294967296).toNat := by
    intro x y
    simp [alu, h0, h1, h2, h3, h4, and_31, sar32_eq_div]
    rfl
  have h33 : u32 33 % 32 = u32 1 % 32 := by decide
  refine ⟨hsll a b, hsrl a b, hsra a b, ?_, ?_, ?_, ?_, ?_, ?_⟩
  · rw [hsll, hsll, u32_add_mul_32]
  · rw [hsrl, hsrl, u32_add_mul_32]
  · rw [hsra, hsra, u32_add_mul_32]
  · rw [hsll, hsll, h33]
  · rw [hsrl, hsrl, h33]
  · rw [hsra, hsra, h33]

/-! ## C4: comparisons -/

/-- C4: for all operands, the eight compare functions return 1 when their relation holds
and 0 otherwise: EQ (0) a = b, NE (1) a ≠ b, LT (2) and LE (3) and GT (6) on the signed
values, ULT (4) and ULE (5) on the unsigned readings, and UGT (7) is unsigned
greater-or-equal, so UGT(a, a) = 1; no code 0..7 returns anything but 0 or 1. -/
theorem alu_compare (a b : Int) :
    alu ALU_C 0 a b = .ok (if a = b then 1 else 0) ∧
    alu ALU_C 1 a b = .ok (if a ≠ b then 1 else 0) ∧
    alu ALU_C 2 a b = .ok (if a < b then 1 else 0) ∧
    alu ALU_C 3 a b = .ok (if a ≤ b then 1 else 0) ∧
    alu ALU_C 4 a b = .ok (if u32 a < u32 b then 1 else 0) ∧
    alu ALU_C 5 a b = .ok (if u32 a ≤ u32 b then 1 else 0) ∧
    alu ALU_C 6 a b = .ok (if a > b then 1 else 0) ∧
    alu ALU_C 7 a b = .ok (if u32 a ≥ u32 b then 1 else 0) ∧
    alu ALU_C 7 a a = .ok 1 ∧
    (∀ f : Fin 8, alu ALU_C f.val a b = .ok 0 ∨ alu ALU_C f.val a b = .ok 1) := by
  obtain ⟨h0, h1, h2, h3, h4, h5, h6, h7⟩ := cmp_vals
  have e0 : alu ALU_C 0 a b = .ok (if a = b then 1 else 0) := by
    simp [alu, ALU_IA, ALU_C, h0]
  have e1 : alu ALU_C 1 a b = .ok (if a ≠ b then 1 else 0) := by
    simp [alu, ALU_IA, ALU_C, h0, h1]
  have e2 : alu ALU_C 2 a b = .ok (if a < b then 1 else 0) := by
    simp [alu, ALU_IA, ALU_C, h0, h1, h2]
  have e3 : alu ALU_C 3 a b = .ok (if a ≤ b then 1 else 0) := by
    simp [alu, ALU_IA, ALU_C, h0, h1, h2, h3]
  have e4 : alu ALU_C 4 a b = .ok (if u32 a < u32 b then 1 else 0) := by
    simp [alu, ALU_IA, ALU_C, h0, h1, h2, h3, h4]
  have e5 : alu ALU_C 5 a b = .ok (if u32 a ≤ u32 b then 1 else 0) := by
    simp [alu, ALU_IA, ALU_C, h0, h1, h2, h3, h4, h5]
  have e6 : alu ALU_C 6 a b = .ok (if a > b then 1 else 0) := by
    simp [alu, ALU_IA, ALU_C, h0, h1, h2, h3, h4, h5, h6]
  have e7 : ∀ x y : Int, alu ALU_C 7 x y = .ok (if u32 x ≥ u32 y then 1 else 0) := by
    intro x y
    simp [alu, ALU_IA, ALU_C, h0, h1, h2, h3, h4, h5, h6, h7]
  refine ⟨e0, e1, e2, e3, e4, e5, e6, e7 a b, ?_, ?_⟩
  · rw [e7]; simp
  · intro f
    have hf := f.isLt
    have hcases : f.val = 0 ∨ f.val = 1 ∨ f.val = 2 ∨ f.val = 3 ∨ f.val = 4 ∨ f.val = 5 ∨
        f.val = 6 ∨ f.val = 7 := by omega
    rcases hcases with h | h | h | h | h | h | h | h <;> rw [h]
    · rw [e0]; split <;> simp
    · rw [e1]; split <;> simp
    · rw [e2]; split <;> simp
    · rw [e3]; split <;> simp
    · rw [e4]; split <;> simp
    · rw [e5]; split <;> simp
    · rw [e6]; split <;> simp
    · rw [e7]; split <;> simp

/-! ## C5: instruction fields -/

theorem or_eq_add {a b : Nat} (i : Nat) (ha : a % 2 ^ i = 0) (hb : b < 2 ^ i) :
    a ||| b = a + b := by
  have h : a = 2 ^ i * (a / 2 ^ i) := by
    have := Nat.div_add_mod a (2 ^ i)
    omega
  rw [h]
  exact (Nat.mul_add_lt_is_or hb _).symm

theorem and_mask_hi (w : Nat) (h : w < 4294967296) :
    w &&& 0xFFFFF800 = 2 ^ 11 * (w / 2 ^ 11) := by
  apply Nat.eq_of_testBit_eq
  intro i
  have hc : (0xFFFFF800 : Nat) = 2 ^ 11 * (2 ^ 21 - 1) := by decide
  rw [Nat.testBit_and, hc, Nat.testBit_mul_pow_two, Nat.testBit_mul_pow_two,
    Nat.testBit_two_pow_sub_one, ← Nat.shiftRight_eq_div_pow, Nat.testBit_shiftRight]
  by_cases h11 : i ≥ 11
  · have e : 11 + (i - 11) = i := by omega
    rw [e]
    by_cases h32 : i < 32
    · have : i - 11 < 21 := by omega
      simp [h11, this]
    · have hlt : w < 2 ^ i := by
        have : 2 ^ 32 ≤ 2 ^ i := Nat.pow_le_pow_right (by decide) (by omega)
        omega
      simp [Nat.testBit_lt_two_pow hlt]
  · simp [h11]

/-- C5: for every 32-bit instruction word, the decoded fields are opcode = w >> 26 < 64,
rx, ra, rb = the 5-bit fields at bits 21, 16 and 11 (each < 32) and func1 = w & 15, and
re-encoding opcode and register indices gives back w & 0xFFFFF800. -/
theorem decode_fields (w : Nat) (hw : w < 4294967296) :
    opcode w = w >>> 26 ∧ opcode w < 64 ∧
    rx w = (w >>> 21) &&& 31 ∧ rx w < 32 ∧
    ra w = (w >>> 16) &&& 31 ∧ ra w < 32 ∧
    rb w = (w >>> 11) &&& 31 ∧ rb w < 32 ∧
    func1 w = w &&& 15 ∧
    (opcode w <<< 26) ||| (rx w <<< 21) ||| (ra w <<< 16) ||| (rb w <<< 11)
      = w &&& 0xFFFFF800 := by
  have ho : opcode w = w / 2 ^ 26 := by unfold opcode; rw [Nat.shiftRight_eq_div_pow]
  have hx : rx w = w / 2 ^ 21 % 32 := by unfold rx; rw [and_31, Nat.shiftRight_eq_div_pow]
  have ha : ra w = w / 2 ^ 16 % 32 := by unfold ra; rw [and_31, Nat.shiftRight_eq_div_pow]
  have hb : rb w = w / 2 ^ 11 % 32 := by unfold rb; rw [and_31, Nat.shiftRight_eq_div_pow]
  refine ⟨rfl, by omega, rfl, by omega, rfl, by omega, rfl, by omega, rfl, ?_⟩
  rw [and_mask_hi w hw, Nat.shiftLeft_eq, Nat.shiftLeft_eq, Nat.shiftLeft_eq, Nat.shiftLeft_eq,
    ho, hx, ha, hb]
  have e1 : w / 2 ^ 26 * 2 ^ 26 ||| w / 2 ^ 21 % 32 * 2 ^ 21
      = w / 2 ^ 26 * 2 ^ 26 + w / 2 ^ 21 % 32 * 2 ^ 21 :=
    or_eq_add 26 (by omega) (by omega)
  rw [e1]
  have e2 : (w / 2 ^ 26 * 2 ^ 26 + w / 2 ^ 21 % 32 * 2 ^ 21) ||| w / 2 ^ 16 % 32 * 2 ^ 16
      = w / 2 ^ 26 * 2 ^ 26 + w / 2 ^ 21 % 32 * 2 ^ 21 + w / 2 ^ 16 % 32 * 2 ^ 16 :=
    or_eq_add 21 (by omega) (by omega)
  rw [e2]
  have e3 : (w / 2 ^ 26 * 2 ^ 26 + w / 2 ^ 21 % 32 * 2 ^ 21 + w / 2 ^ 16 % 32 * 2 ^ 16) |||
      w / 2 ^ 11 % 32 * 2 ^ 11
      = w / 2 ^ 26 * 2 ^ 26 + w / 2 ^ 21 % 32 * 2 ^ 21 + w / 2 ^ 16 % 32 * 2 ^ 16
        + w / 2 ^ 11 % 32 * 2 ^ 11 :=
    or_eq_add 16 (by omega) (by omega)
  rw [e3]
  omega

/-- C5 at the word 0x64A41805 (opcode 25, rx 5, ra 4, rb 3, func1 5). -/
theorem decode_fields_witness :
    opcode 0x64A41805 = 25 ∧ rx 0x64A41805 = 5 ∧ ra 0x64A41805 = 4 ∧ rb 0x64A41805 = 3 ∧
    func1 0x64A41805 = 5 ∧
    (opcode 0x64A41805 <<< 26) ||| (rx 0x64A41805 <<< 21) ||| (ra 0x64A41805 <<< 16) |||
      (rb 0x64A41805 <<< 11) = 0x64A41805 &&& 0xFFFFF800 :=
  have h := decode_fields 0x64A41805 (by decide)
  ⟨by decide, by decide, by decide, by decide, by decide, h.2.2.2.2.2.2.2.2.2⟩

/-! ## C6: the contiguous immediates -/

theorem i32_cases (n : Nat) :
    (i32 n = ((n % 4294967296 : Nat) : Int) ∧ n % 4294967296 < 2147483648) ∨
    (i32 n = ((n % 4294967296 : Nat) : Int) - 4294967296 ∧ 2147483648 ≤ n % 4294967296) := by
  unfold i32; split <;> omega

theorem wrap32_cases (x : Int) :
    (wrap32 x = x % 4294967296 ∧ x % 4294967296 < 2147483648) ∨
    (wrap32 x = x % 4294967296 - 4294967296 ∧ 2147483648 ≤ x % 4294967296) := by
  unfold wrap32
  rcases i32_cases (u32 x) with h | h <;> have := u32_cast x <;> have := u32_lt x <;> omega

theorem imm_n_eq (w : Nat) : imm_n w = ((w : Int) + 1048576) % 2097152 - 1048576 := by
  unfold imm_n shl32
  rw [sar32_eq_div]
  rcases i32_cases w with h | h <;>
    rcases wrap32_cases (i32 w * 2 ^ 11) with h2 | h2 <;> omega

theorem imm_l_eq (w : Nat) : imm_l w = ((w : Int) + 32768) % 65536 - 32768 := by
  unfold imm_l shl32
  rw [sar32_eq_div]
  rcases i32_cases w with h | h <;>
    rcases wrap32_cases (i32 w * 2 ^ 16) with h2 | h2 <;> omega

theorem imm_i_eq (w : Nat) : imm_i w = ((w : Int) / 16 + 2048) % 4096 - 2048 := by
  unfold imm_i shl32
  rw [sar32_eq_div]
  rcases i32_cases w with h | h <;>
    rcases wrap32_cases (i32 w * 2 ^ 16) with h2 | h2 <;> omega

/-- C6: for every instruction word, imm_n is the unique integer in [-2^20, 2^20)
congruent to w modulo 2^21, imm_l the unique integer in [-2^15, 2^15) congruent to w
modulo 2^16, and imm_i the unique integer in [-2^11, 2^11) congruent to w >> 4 modulo
2^12. -/
theorem imm_sign_extend (w : Nat) :
    (-1048576 ≤ imm_n w ∧ imm_n w < 1048576 ∧ imm_n w % 2097152 = (w : Int) % 2097152 ∧
      ∀ z : Int, -1048576 ≤ z → z < 1048576 → z % 2097152 = (w : Int) % 2097152 →
        z = imm_n w) ∧
    (-32768 ≤ imm_l w ∧ imm_l w < 32768 ∧ imm_l w % 65536 = (w : Int) % 65536 ∧
      ∀ z : Int, -32768 ≤ z → z < 32768 → z % 65536 = (w : Int) % 65536 → z = imm_l w) ∧
    (-2048 ≤ imm_i w ∧ imm_i w < 2048 ∧ imm_i w % 4096 = ((w >>> 4 : Nat) : Int) % 4096 ∧
      ∀ z : Int, -2048 ≤ z → z < 2048 → z % 4096 = ((w >>> 4 : Nat) : Int) % 4096 →
        z = imm_i w) := by
  have hs : ((w >>> 4 : Nat) : Int) = (w : Int) / 16 := by
    rw [Nat.shiftRight_eq_div_pow]; norm_cast
  rw [hs, imm_n_eq, imm_l_eq, imm_i_eq]
  refine ⟨⟨by omega, by omega, by omega, ?_⟩, ⟨by omega, by omega, by omega, ?_⟩,
    ⟨by omega, by omega, by omega, ?_⟩⟩
  · intro z h1 h2 h3; omega
  · intro z h1 h2 h3; omega
  · intro z h1 h2 h3; omega

/-- C6 at the word 0x4A5FFFF5: imm_n = -11, imm_l = -11, imm_i = -1, each the only
integer of its range in its congruence class. -/
theorem imm_sign_extend_witness :
    imm_n 0x4A5FFFF5 = -11 ∧ imm_l 0x4A5FFFF5 = -11 ∧ imm_i 0x4A5FFFF5 = -1 :=
  have h := imm_sign_extend 0x4A5FFFF5
  ⟨(h.1.2.2.2 (-11) (by decide) (by decide) (by decide)).symm,
   (h.2.1.2.2.2 (-11) (by decide) (by decide) (by decide)).symm,
   (h.2.2.2.2.2 (-1) (by decide) (by decide) (by decide)).symm⟩

/-! ## C7: the split immediates -/

/-- C7 (evaluation of the code): the words 0xA0010000 and 0xA0000000 differ only in
the ra field, and so do 0x64010000 and 0x64000000, yet imm_c and imm_s differ on them;
the value "sext5(w[25:21]) * 2^16 + (w & 0xFFFF)" (respectively "* 2^11 + (w & 0x7FF)")
is 0 on all four words. -/
theorem imm_split_depends_on_ra :
    (0xA0010000 &&& 0xFFE0FFFF = 0xA0000000 &&& 0xFFE0FFFF ∧
      ra 0xA0010000 = 1 ∧ ra 0xA0000000 = 0 ∧
      imm_c 0xA0010000 = 2048 ∧ imm_c 0xA0000000 = 0 ∧
      ((((rx 0xA0010000 : Nat) : Int) + 16) % 32 - 16) * 65536
        + ((0xA0010000 &&& 0xFFFF : Nat) : Int) = 0) ∧
    (0x64010000 &&& 0xFFE0FFFF = 0x64000000 &&& 0xFFE0FFFF ∧
      ra 0x64010000 = 1 ∧ ra 0x64000000 = 0 ∧
      imm_s 0x64010000 = 64 ∧ imm_s 0x64000000 = 0 ∧
      ((((rx 0x64010000 : Nat) : Int) + 16) % 32 - 16) * 2048
        + ((0x64010000 &&& 0x7FF : Nat) : Int) = 0) := by
  decide

/-! ## C8: address validation -/

theorem and_3 (x : Nat) : x &&& 3 = x % 4 := Nat.and_pow_two_sub_one_eq_mod x 2

theorem check_addr_done_iff (s : Machine) (addr : Nat) :
    check_addr s addr = .done s ↔ (addr % 4 = 0 ∧ addr < s.mem_size) := by
  unfold check_addr
  rw [and_3]
  by_cases h1 : addr % 4 = 0
  · by_cases h2 : addr < s.mem_size
    · have : ¬ addr ≥ s.mem_size := by omega
      simp [h1, h2, this]
    · have : addr ≥ s.mem_size := by omega
      simp [h1, h2, this]
  · simp [h1]

theorem check_addr_fatal_iff (s : Machine) (addr : Nat) :
    (check_addr s addr).isFatal = true ↔ (addr % 4 ≠ 0 ∨ addr ≥ s.mem_size) := by
  unfold check_addr
  rw [and_3]
  by_cases h1 : addr % 4 = 0
  · by_cases h2 : addr ≥ s.mem_size
    · simp [h1, h2, Outcome.isFatal]
    · simp [h1, h2, Outcome.isFatal]
  · simp [h1, Outcome.isFatal]

/-- Outcome of `check_addr` when it stops: the globals are those of the call. -/
theorem check_addr_fatal_state (s s1 : Machine) (addr : Nat) (e : Fatal)
    (h : check_addr s addr = .fatal e s1) : s1 = s := by
  unfold check_addr at h
  split at h
  · injection h with _ h2; exact h2.symm
  · split at h
    · injection h with _ h2; exact h2.symm
    · cases h

/-- C8: `check_addr(addr)` is a fatal error exactly when addr is not a multiple of 4 or
addr >= mem_size, and otherwise returns with the state unchanged; so for every memory
size 4 * (n + 1) it rejects addr = 2 and addr = mem_size and accepts mem_size - 4. -/
theorem check_addr_spec (s : Machine) (addr n : Nat) :
    ((check_addr s addr).isFatal = true ↔ (addr % 4 ≠ 0 ∨ addr ≥ s.mem_size)) ∧
    (check_addr s addr = .done s ↔ ¬ (addr % 4 ≠ 0 ∨ addr ≥ s.mem_size)) ∧
    (check_addr { s with mem_size := 4 * (n + 1) } 2).isFatal = true ∧
    (check_addr { s with mem_size := 4 * (n + 1) } (4 * (n + 1))).isFatal = true ∧
    check_addr { s with mem_size := 4 * (n + 1) } (4 * (n + 1) - 4)
      = .done { s with mem_size := 4 * (n + 1) } := by
  refine ⟨check_addr_fatal_iff s addr, ?_, ?_, ?_, ?_⟩
  · rw [check_addr_done_iff]; omega
  · rw [check_addr_fatal_iff]; left; decide
  · rw [check_addr_fatal_iff]; right; simp
  · rw [check_addr_done_iff]; simp; omega

/-! ## C9 and C10: the store path -/

theorem exec_ST (s : Machine) (w : Nat) (hop : opcode w = 25) :
    exec s w =
      match check_addr s (u32 (wrap32 (i32 (s.reg (ra w)) + imm_s w))) with
      | .done s1 =>
        if in_mem s1 (sar32 (wrap32 (i32 (s.reg (ra w)) + imm_l w)) 2) then
          .done (set_mem s1 (sar32 (wrap32 (i32 (s.reg (ra w)) + imm_l w)) 2).toNat
            (u32 (i32 (s.reg (rb w)))), 0)
        else .undef
      | .fatal e s1 => .fatal e s1
      | .undef => .undef := by
  obtain ⟨v0, v1, v6, v7, v18, v19, v24, v25, _⟩ := opcode_vals
  unfold exec
  simp only [hop, v0, v1, v6, v7, v18, v19, v24, v25]
  rfl

theorem check_addr_cases (s : Machine) (addr : Nat) :
    (addr % 4 = 0 ∧ addr < s.mem_size ∧ check_addr s addr = .done s) ∨
    ((addr % 4 ≠ 0 ∨ addr ≥ s.mem_size) ∧ ∃ e, check_addr s addr = .fatal e s) := by
  unfold check_addr
  rw [and_3]
  by_cases h1 : addr % 4 = 0
  · by_cases h2 : addr ≥ s.mem_size
    · right; simp [h1, h2]
    · left; simp [h1, h2]; omega
  · right; simp [h1]

theorem u32_i32_add (n : Nat) (x : Int) : u32 (wrap32 (i32 n + x)) = u32 ((n : Int) + x) := by
  rw [u32_wrap32]
  apply u32_congr
  rcases i32_cases n with h | h <;> omega

theorem u32_i32 (n : Nat) : u32 (i32 n) = n % 4294967296 := by
  unfold u32
  rcases i32_cases n with h | h <;> omega

/-- The signed word index `(a + imm) >> 2` when the 32-bit sum is below `2^31`. -/
theorem index_of_nonneg (n : Nat) (x : Int) (h : u32 ((n : Int) + x) < 2147483648) :
    sar32 (wrap32 (i32 n + x)) 2 = ((u32 ((n : Int) + x) >>> 2 : Nat) : Int) := by
  rw [sar32_eq_div, Nat.shiftRight_eq_div_pow]
  have hc := u32_cast ((n : Int) + x)
  push_cast
  rcases i32_cases n with h1 | h1 <;>
    rcases wrap32_cases (i32 n + x) with h2 | h2 <;> omega

/-- C9 (evaluation of the code): with `reg[0] = 0x3FFFF8` and the default memory size,
the ST word 0x64001000 has imm_s = 4 and imm_l = 4096; the validated address 0x3FFFFC
passes `check_addr`, the store goes to byte address 0x400FF8 >= mem_size, and `exec` does
not stop in a fatal error.  With `reg[1] = 7` the ST word 0x64000802 validates address 4
and stores 7 through the misaligned address 2050 (word 512), returning 0. -/
theorem exec_st_store_unvalidated :
    (opcode 0x64001000 = ST ∧
      u32 ((st_high_base.reg (ra 0x64001000) : Int) + imm_s 0x64001000) = 0x3FFFFC ∧
      check_addr st_high_base 0x3FFFFC = .done st_high_base ∧
      u32 ((st_high_base.reg (ra 0x64001000) : Int) + imm_l 0x64001000) = 0x400FF8 ∧
      0x400FF8 ≥ st_high_base.mem_size ∧
      exec st_high_base 0x64001000 = .undef ∧
      (exec st_high_base 0x64001000).isFatal = false) ∧
    (opcode 0x64000802 = ST ∧
      u32 ((st_low_base.reg (ra 0x64000802) : Int) + imm_s 0x64000802) = 4 ∧
      u32 ((st_low_base.reg (ra 0x64000802) : Int) + imm_l 0x64000802) = 2050 ∧
      exec st_low_base 0x64000802 = .done (set_mem st_low_base 512 7, 0)) := by
  refine ⟨⟨by decide, by decide, rfl, by decide, by decide, rfl, rfl⟩,
    ⟨by decide, by decide, by decide, rfl⟩⟩

/-- C10 (evaluation of the code): with a memory of 3072 MB and `reg[0] = 0x80000000`, the ST
word 0x64000000 validates the address 0x80000000 (aligned, below mem_size); the word index
((a + imm_l) mod 2^32) >> 2 = 0x20000000 lies inside memory, but `exec` does not return:
the index it uses is the signed (a + imm_l) >> 2 = -0x20000000, outside `mem`. -/
theorem exec_st_signed_index :
    opcode 0x64000000 = 25 ∧
    u32 ((st_large_mem.reg (ra 0x64000000) : Int) + imm_s 0x64000000) = 0x80000000 ∧
    0x80000000 % 4 = 0 ∧ 0x80000000 < st_large_mem.mem_size ∧
    u32 ((st_large_mem.reg (ra 0x64000000) : Int) + imm_l 0x64000000) >>> 2 = 0x20000000 ∧
    4 * 0x20000000 + 4 ≤ st_large_mem.mem_size ∧
    sar32 (wrap32 (i32 (st_large_mem.reg (ra 0x64000000)) + imm_l 0x64000000)) 2
      = -0x20000000 ∧
    exec st_large_mem 0x64000000 = .undef ∧
    ¬ ∃ s1 r, exec st_large_mem 0x64000000 = .done (s1, r) := by
  have hu : exec st_large_mem 0x64000000 = .undef := rfl
  refine ⟨by decide, by decide, by decide, by decide, by decide, by decide, by decide, hu, ?_⟩
  rintro ⟨s1, r, h⟩
  rw [hu] at h
  cases h

/-- The store path where the index is not negative: for every state and every word with
opcode ST (25), `exec` is a fatal
error exactly when the address (reg[ra] + imm_s) mod 2^32 is misaligned or >= mem_size;
when that validation passes, the address (reg[ra] + imm_l) mod 2^32 is below 2^31 and its
word index lies inside memory, `exec` returns 0 having written reg[rb] to that word, every
other memory word, every register, the pc, the memory size and the instruction count
being unchanged. -/
theorem exec_st_spec (s : Machine) (w : Nat) (hop : opcode w = 25) :
    ((exec s w).isFatal = true ↔
      (u32 ((s.reg (ra w) : Int) + imm_s w) % 4 ≠ 0 ∨
        u32 ((s.reg (ra w) : Int) + imm_s w) ≥ s.mem_size)) ∧
    (u32 ((s.reg (ra w) : Int) + imm_s w) % 4 = 0 →
      u32 ((s.reg (ra w) : Int) + imm_s w) < s.mem_size →
      u32 ((s.reg (ra w) : Int) + imm_l w) < 2147483648 →
      4 * (u32 ((s.reg (ra w) : Int) + imm_l w) >>> 2) + 4 ≤ s.mem_size →
      ∃ s1, exec s w = .done (s1, 0) ∧
        s1.mem (u32 ((s.reg (ra w) : Int) + imm_l w) >>> 2) = s.reg (rb w) % 4294967296 ∧
        (∀ j, j ≠ u32 ((s.reg (ra w) : Int) + imm_l w) >>> 2 → s1.mem j = s.mem j) ∧
        s1.reg = s.reg ∧ s1.pc = s.pc ∧ s1.mem_size = s.mem_size ∧
        s1.inst_cnt = s.inst_cnt) := by
  have hx := exec_ST s w hop
  rw [u32_i32_add] at hx
  rcases check_addr_cases s (u32 ((s.reg (ra w) : Int) + imm_s w)) with
    ⟨h1, h2, hc⟩ | ⟨h, e, hc⟩
  · rw [hc] at hx
    constructor
    · have hnf : (exec s w).isFatal = false := by
        rw [hx]
        dsimp only
        split <;> rfl
      rw [hnf]
      constructor
      · intro hf; cases hf
      · intro hf; omega
    · intro _ _ h3 h4
      have hi := index_of_nonneg (s.reg (ra w)) (imm_l w) h3
      rw [hi] at hx
      have hin : in_mem s ((u32 ((s.reg (ra w) : Int) + imm_l w) >>> 2 : Nat) : Int) := by
        unfold in_mem
        constructor
        · omega
        · omega
      dsimp only at hx
      rw [if_pos hin, Int.toNat_ofNat, u32_i32] at hx
      refine ⟨_, hx, ?_, ?_, rfl, rfl, rfl, rfl⟩
      · simp [set_mem]
      · intro j hj
        simp [set_mem, Function.update_noteq hj]
  · rw [hc] at hx
    constructor
    · have hf : (exec s w).isFatal = true := by rw [hx]; rfl
      rw [hf]
      simp only [true_iff]
      exact h
    · intro h1 h2
      omega

/-- The store path at the state with `reg[1] = 7` and the ST word 0x64000802: the address
validated is 4, the store goes to word 2050 >> 2 = 512. -/
theorem exec_st_spec_witness :
    opcode 0x64000802 = 25 ∧
    ∃ s1, exec st_low_base 0x64000802 = .done (s1, 0) ∧ s1.mem 512 = 7 ∧
      (∀ j, j ≠ 512 → s1.mem j = st_low_base.mem j) ∧
      s1.reg = st_low_base.reg ∧ s1.pc = st_low_base.pc ∧
      s1.mem_size = st_low_base.mem_size ∧ s1.inst_cnt = st_low_base.inst_cnt :=
  ⟨by decide,
   (exec_st_spec st_low_base 0x64000802 (by decide)).2 (by decide) (by decide) (by decide)
     (by decide)⟩

/-! ## C11: the load path -/

theorem exec_LD (s : Machine) (w : Nat) (hop : opcode w = 24) :
    exec s w =
      match check_addr s (u32 (wrap32 (i32 (s.reg (ra w)) + imm_l w))) with
      | .done s1 =>
        if in_mem s1 (sar32 (wrap32 (i32 (s.reg (ra w)) + imm_l w)) 2) then
          .done (set_reg s1 (rx w)
            (s1.mem (sar32 (wrap32 (i32 (s.reg (ra w)) + imm_l w)) 2).toNat), 0)
        else .undef
      | .fatal e s1 => .fatal e s1
      | .undef => .undef := by
  obtain ⟨v0, v1, v6, v7, v18, v19, v24, _⟩ := opcode_vals
  unfold exec
  simp only [hop, v0, v1, v6, v7, v18, v19, v24]
  rfl

/-- C11 (evaluation of the code): with a memory of 3072 MB and `reg[0] = 0x80000000`, the LD
word 0x60000000 has addr = 0x80000000, a multiple of 4 below mem_size, but `exec` does
not return: the index it uses is the signed (a + imm_l) >> 2 = -0x20000000. -/
theorem exec_ld_signed_index :
    opcode 0x60000000 = 24 ∧
    u32 ((st_large_mem.reg (ra 0x60000000) : Int) + imm_l 0x60000000) = 0x80000000 ∧
    0x80000000 % 4 = 0 ∧ 0x80000000 < st_large_mem.mem_size ∧
    sar32 (wrap32 (i32 (st_large_mem.reg (ra 0x60000000)) + imm_l 0x60000000)) 2
      = -0x20000000 ∧
    exec st_large_mem 0x60000000 = .undef ∧
    (¬ ∃ s1 r, exec st_large_mem 0x60000000 = .done (s1, r)) ∧
    (exec st_large_mem 0x60000000).isFatal = false := by
  have hu : exec st_large_mem 0x60000000 = .undef := rfl
  refine ⟨by decide, by decide, by decide, by decide, by decide, hu, ?_, ?_⟩
  · rintro ⟨s1, r, h⟩
    rw [hu] at h
    cases h
  · rw [hu]; rfl

/-- The load path where the index is not negative: for every state whose memory size is
a multiple of 4 and every word
with opcode LD (24), with addr = (reg[ra] + imm_l) mod 2^32: if addr is a multiple of 4,
addr < mem_size and addr < 2^31, `exec` returns 0 with reg[rx] set to the memory word of
index addr >> 2 and nothing else changed; if addr is not a multiple of 4 or
addr >= mem_size, `exec` is a fatal error and the state is unchanged. -/
theorem exec_ld_spec (s : Machine) (w : Nat) (hop : opcode w = 24)
    (hm : s.mem_size % 4 = 0) :
    (u32 ((s.reg (ra w) : Int) + imm_l w) % 4 = 0 →
      u32 ((s.reg (ra w) : Int) + imm_l w) < s.mem_size →
      u32 ((s.reg (ra w) : Int) + imm_l w) < 2147483648 →
      exec s w = .done
        (set_reg s (rx w) (s.mem (u32 ((s.reg (ra w) : Int) + imm_l w) >>> 2)), 0)) ∧
    ((u32 ((s.reg (ra w) : Int) + imm_l w) % 4 ≠ 0 ∨
        u32 ((s.reg (ra w) : Int) + imm_l w) ≥ s.mem_size) →
      ∃ e, exec s w = .fatal e s) := by
  have hx := exec_LD s w hop
  rw [u32_i32_add] at hx
  rcases check_addr_cases s (u32 ((s.reg (ra w) : Int) + imm_l w)) with
    ⟨h1, h2, hc⟩ | ⟨h, e, hc⟩
  · rw [hc] at hx
    constructor
    · intro _ _ h3
      have hi := index_of_nonneg (s.reg (ra w)) (imm_l w) h3
      rw [hi] at hx
      have hin : in_mem s ((u32 ((s.reg (ra w) : Int) + imm_l w) >>> 2 : Nat) : Int) := by
        unfold in_mem
        rw [Nat.shiftRight_eq_div_pow]
        constructor
        · omega
        · omega
      dsimp only at hx
      rw [if_pos hin, Int.toNat_ofNat] at hx
      exact hx
    · intro h; omega
  · rw [hc] at hx
    constructor
    · intro h1 h2; omega
    · intro _; exact ⟨e, hx⟩

/-- The load path at the state with `reg[1] = 7` and the LD word 0x60A00004
(rx = 5, ra = 0, imm_l = 4): reg[5] receives the memory word of index 1. -/
theorem exec_ld_spec_witness :
    opcode 0x60A00004 = 24 ∧ st_low_base.mem_size % 4 = 0 ∧
    exec st_low_base 0x60A00004 = .done (set_reg st_low_base 5 (st_low_base.mem 1), 0) :=
  ⟨by decide, by decide,
   (exec_ld_spec st_low_base 0x60A00004 (by decide) (by decide)).1 (by decide) (by decide)
     (by decide)⟩

/-! ## C12: conditional branches -/

theorem branch_target (p : Nat) (x : Int) :
    (p + 4 + u32 (wrap32 (x * 4))) % 4294967296 = u32 ((p : Int) + 4 + 4 * x) := by
  rw [u32_wrap32]
  have h1 := u32_cast (x * 4)
  have h2 := u32_cast ((p : Int) + 4 + 4 * x)
  omega

theorem exec_branch_eq (s : Machine) (w : Nat) (hop : 40 ≤ opcode w ∧ opcode w ≤ 45) :
    exec s w = .done
      (if (opcode w = 40 ∧ i32 (s.reg (ra w)) = 0) ∨ (opcode w = 41 ∧ i32 (s.reg (ra w)) ≠ 0) ∨
          (opcode w = 42 ∧ i32 (s.reg (ra w)) < 0) ∨ (opcode w = 43 ∧ i32 (s.reg (ra w)) ≤ 0) ∨
          (opcode w = 44 ∧ i32 (s.reg (ra w)) > 0) ∨ (opcode w = 45 ∧ i32 (s.reg (ra w)) ≥ 0)
        then { s with pc := (((s.pc : Int) + 4 + 4 * imm_c w) % 4294967296).toNat }
        else s, 1) := by
  obtain ⟨v0, v1, v6, v7, v18, v19, v24, v25, v32, v33, v40, v41, v42, v43, v44, v45, _⟩ :=
    opcode_vals
  have hb : ∀ c : Bool, branch s w c = .done
      (if c = true then { s with pc := (((s.pc : Int) + 4 + 4 * imm_c w) % 4294967296).toNat }
        else s, 1) := by
    intro c
    unfold branch
    rw [branch_target]
    cases c <;> rfl
  have hcases : opcode w = 40 ∨ opcode w = 41 ∨ opcode w = 42 ∨ opcode w = 43 ∨
      opcode w = 44 ∨ opcode w = 45 := by omega
  unfold exec
  rcases hcases with h | h | h | h | h | h <;>
    simp only [h, v0, v1, v6, v7, v18, v19, v24, v25, v32, v33, v40, v41, v42, v43, v44, v45,
      hb] <;> simp

/-! ## C13: jumps -/

theorem jump_target (p : Nat) (x : Int) :
    (p + 4 + u32 x) % 4294967296 = (((p : Int) + 4 + x) % 4294967296).toNat := by
  have h1 := u32_cast x
  omega

theorem exec_jump_eq (s : Machine) (w : Nat) (hop : opcode w = 32 ∨ opcode w = 33) :
    exec s w = .done
      (set_pc (set_reg s (rx w) ((s.pc + 4) % 4294967296))
        (if opcode w = 32 then (((s.pc : Int) + 4 + imm_n w) % 4294967296).toNat
          else s.reg (ra w) % 4294967296), 1) := by
  obtain ⟨v0, v1, v6, v7, v18, v19, v24, v25, v32, v33, _⟩ := opcode_vals
  unfold exec
  rcases hop with h | h
  · simp only [h, v0, v1, v6, v7, v18, v19, v24, v25, v32, v33, jump_target]
    simp
  · simp only [h, v0, v1, v6, v7, v18, v19, v24, v25, v32, v33, u32_i32]
    simp

/-- C13: for every state with program counter p, `exec` of a JL word (opcode 32) sets
reg[rx] = (p + 4) mod 2^32 and pc = (p + 4 + imm_n) mod 2^32, and `exec` of a JR word
(opcode 33) sets reg[rx] = (p + 4) mod 2^32 and pc = the value reg[ra] held before the
instruction (also when rx = ra); no other register and no memory word changes and the
value returned is 1. -/
theorem exec_jump_spec (s : Machine) (w : Nat) (hop : opcode w = 32 ∨ opcode w = 33) :
    exec s w = .done
      (set_pc (set_reg s (rx w) ((s.pc + 4) % 4294967296))
        (if opcode w = 32 then (((s.pc : Int) + 4 + imm_n w) % 4294967296).toNat
          else s.reg (ra w) % 4294967296), 1) :=
  exec_jump_eq s w hop

/-- C13 at pc = 0x2000: the JL word 0x80200001 (rx = 1, imm_n = 1) links 0x2004 into r1
and jumps to 0x2005; the JR word 0x84630000 (rx = ra = 3, reg[3] = 0x1236) links 0x2004
into r3 and jumps to the old reg[3] = 0x1236. -/
theorem exec_jump_spec_witness :
    exec st_jump 0x80200001 = .done (set_pc (set_reg st_jump 1 0x2004) 0x2005, 1) ∧
    exec st_jump 0x84630000 = .done (set_pc (set_reg st_jump 3 0x2004) 0x1236, 1) :=
  ⟨exec_jump_spec st_jump 0x80200001 (Or.inl (by decide)),
   exec_jump_spec st_jump 0x84630000 (Or.inr (by decide))⟩

/-- C12: for every state and every word with a conditional-branch opcode (JEQ 40, JNE 41,
JLT 42, JLE 43, JGT 44, JGE 45), with a = reg[ra] read as signed: when the condition
(a = 0, a ≠ 0, a < 0, a ≤ 0, a > 0, a ≥ 0 respectively) holds, `exec` sets pc to
(pc + 4 + 4 * imm_c) mod 2^32, otherwise it leaves the state as it is; registers and
memory never change and the value returned is 1 in both cases. -/
theorem exec_branch_spec (s : Machine) (w : Nat) (hop : 40 ≤ opcode w ∧ opcode w ≤ 45) :
    exec s w = .done
      (if (opcode w = 40 ∧ i32 (s.reg (ra w)) = 0) ∨ (opcode w = 41 ∧ i32 (s.reg (ra w)) ≠ 0) ∨
          (opcode w = 42 ∧ i32 (s.reg (ra w)) < 0) ∨ (opcode w = 43 ∧ i32 (s.reg (ra w)) ≤ 0) ∨
          (opcode w = 44 ∧ i32 (s.reg (ra w)) > 0) ∨ (opcode w = 45 ∧ i32 (s.reg (ra w)) ≥ 0)
        then { s with pc := (((s.pc : Int) + 4 + 4 * imm_c w) % 4294967296).toNat }
        else s, 1) :=
  exec_branch_eq s w hop

/-- C12 at the state with `reg[1] = 7`: JEQ on r1 (word 0xA0010000) is not taken and
leaves the state as it is; JEQ on r0 (word 0xA0000000, imm_c = 0) is taken and sets
pc = 0x2004; both return 1. -/
theorem exec_branch_spec_witness :
    exec st_low_base 0xA0010000 = .done (st_low_base, 1) ∧
    exec st_low_base 0xA0000000 = .done ({ st_low_base with pc := 0x2004 }, 1) :=
  ⟨exec_branch_spec st_low_base 0xA0010000 (by decide),
   exec_branch_spec st_low_base 0xA0000000 (by decide)⟩

/-! ## The shape of `exec` by opcode -/

theorem exec_shape (s : Machine) (w : Nat) :
    ((opcode w = 0 ∨ opcode w = 1) ∧
      exec s w = exec_alu s w ALU_IA (i32 (s.reg (ra w)))
        (if opcode w = 0 then imm_i w else i32 (s.reg (rb w)))) ∨
    ((opcode w = 6 ∨ opcode w = 7) ∧
      exec s w = exec_alu s w ALU_C (i32 (s.reg (ra w)))
        (if opcode w = 6 then imm_i w else i32 (s.reg (rb w)))) ∨
    ((opcode w = 18 ∨ opcode w = 19) ∧
      exec s w = .done (set_reg s (rx w)
        (if opcode w = 18 then u32 (imm_n w) else u32 (shl32 (imm_n w) 11)), 0)) ∨
    (opcode w = 24 ∨ opcode w = 25) ∨
    (opcode w = 32 ∨ opcode w = 33) ∨
    (40 ≤ opcode w ∧ opcode w ≤ 45) ∨
    (opcode w = 48 ∧ exec s w = .fatal .sys_unsupported s) ∨
    (unknown_op w ∧ exec s w = .fatal (.unknown_opcode (opcode w)) s) := by
  obtain ⟨v0, v1, v6, v7, v18, v19, v24, v25, v32, v33, v40, v41, v42, v43, v44, v45, v48⟩ :=
    opcode_vals
  by_cases h0 : opcode w = 0
  · left
    refine ⟨Or.inl h0, ?_⟩
    unfold exec; simp only [h0, v0]; rfl
  by_cases h1 : opcode w = 1
  · left
    refine ⟨Or.inr h1, ?_⟩
    unfold exec; simp only [h1, v0, v1]; rfl
  by_cases h6 : opcode w = 6
  · right; left
    refine ⟨Or.inl h6, ?_⟩
    unfold exec; simp only [h6, v0, v1, v6]; rfl
  by_cases h7 : opcode w = 7
  · right; left
    refine ⟨Or.inr h7, ?_⟩
    unfold exec; simp only [h7, v0, v1, v6, v7]; rfl
  by_cases h18 : opcode w = 18
  · right; right; left
    refine ⟨Or.inl h18, ?_⟩
    unfold exec; simp only [h18, v0, v1, v6, v7, v18]; rfl
  by_cases h19 : opcode w = 19
  · right; right; left
    refine ⟨Or.inr h19, ?_⟩
    unfold exec; simp only [h19, v0, v1, v6, v7, v18, v19]; rfl
  by_cases h24 : opcode w = 24
  · right; right; right; left; exact Or.inl h24
  by_cases h25 : opcode w = 25
  · right; right; right; left; exact Or.inr h25
  by_cases h32 : opcode w = 32
  · right; right; right; right; left; exact Or.inl h32
  by_cases h33 : opcode w = 33
  · right; right; right; right; left; exact Or.inr h33
  by_cases hb : 40 ≤ opcode w ∧ opcode w ≤ 45
  · right; right; right; right; right; left; exact hb
  by_cases h48 : opcode w = 48
  · right; right; right; right; right; right; left
    refine ⟨h48, ?_⟩
    unfold exec
    simp only [h48, v0, v1, v6, v7, v18, v19, v24, v25, v32, v33, v40, v41, v42, v43, v44, v45,
      v48]
    rfl
  · right; right; right; right; right; right; right
    have h40 : ¬ opcode w = 40 := by omega
    have h41 : ¬ opcode w = 41 := by omega
    have h42 : ¬ opcode w = 42 := by omega
    have h43 : ¬ opcode w = 43 := by omega
    have h44 : ¬ opcode w = 44 := by omega
    have h45 : ¬ opcode w = 45 := by omega
    constructor
    · unfold unknown_op
      simp only [List.mem_cons, List.mem_singleton, List.not_mem_nil, or_false, not_or]
      exact ⟨h0, h1, h6, h7, h18, h19, h24, h25, h32, h33, h40, h41, h42, h43, h44, h45, h48⟩
    · unfold exec
      simp only [v0, v1, v6, v7, v18, v19, v24, v25, v32, v33, v40, v41, v42, v43, v44, v45,
        v48]
      rw [if_neg h0, if_neg h1, if_neg h6, if_neg h7, if_neg h18, if_neg h19, if_neg h24,
        if_neg h25, if_neg h32, if_neg h33, if_neg h40, if_neg h41, if_neg h42, if_neg h43,
        if_neg h44, if_neg h45, if_neg h48]

theorem alu_ia_cases (f : Nat) (a b : Int) (hf : f < 16) :
    ((f = 10 ∨ f = 11 ∨ f = 14 ∨ f = 15) ∧ alu ALU_IA f a b = .error (.unknown_arith f)) ∨
    (¬ (f = 10 ∨ f = 11 ∨ f = 14 ∨ f = 15) ∧ ∃ v, alu ALU_IA f a b = .ok v) := by
  obtain ⟨h0, h1, h2, h3, h4, h5, h6, h7, h8, h9, h12, h13⟩ := func_vals
  interval_cases f <;> simp [alu, h0, h1, h2, h3, h4, h5, h6, h7, h8, h9, h12, h13]

theorem alu_c_cases (f : Nat) (a b : Int) :
    (8 ≤ f ∧ alu ALU_C f a b = .error (.unknown_compare f)) ∨
    (f < 8 ∧ ∃ v, alu ALU_C f a b = .ok v) := by
  obtain ⟨h0, h1, h2, h3, h4, h5, h6, h7⟩ := cmp_vals
  by_cases hf : f < 8
  · right
    refine ⟨hf, ?_⟩
    interval_cases f <;> simp [alu, ALU_IA, ALU_C, h0, h1, h2, h3, h4, h5, h6, h7]
  · left
    refine ⟨by omega, ?_⟩
    have n0 : f ≠ 0 := by omega
    have n1 : f ≠ 1 := by omega
    have n2 : f ≠ 2 := by omega
    have n3 : f ≠ 3 := by omega
    have n4 : f ≠ 4 := by omega
    have n5 : f ≠ 5 := by omega
    have n6 : f ≠ 6 := by omega
    have n7 : f ≠ 7 := by omega
    simp [alu, ALU_IA, ALU_C, h0, h1, h2, h3, h4, h5, h6, h7, n0, n1, n2, n3, n4, n5, n6, n7]

theorem func1_lt (w : Nat) : func1 w < 16 := by
  unfold func1
  have : w &&& 0xf = w % 16 := Nat.and_pow_two_sub_one_eq_mod w 4
  omega

theorem exec_alu_fatal_iff (s : Machine) (w t : Nat) (a b : Int) :
    (exec_alu s w t a b).isFatal = true ↔ ∃ e, alu t (func1 w) a b = .error e := by
  unfold exec_alu
  cases h : alu t (func1 w) a b with
  | ok v => simp [Outcome.isFatal]
  | error e => simp [Outcome.isFatal]

theorem exec_alu_fatal_state (s s1 : Machine) (w t : Nat) (a b : Int) (e : Fatal)
    (h : exec_alu s w t a b = .fatal e s1) : s1 = s := by
  unfold exec_alu at h
  split at h
  · cases h
  · injection h with _ h2; exact h2.symm

theorem exec_alu_frame (s s1 : Machine) (w t r : Nat) (a b : Int)
    (h : exec_alu s w t a b = .done (s1, r)) :
    r = 0 ∧ ∃ v, s1 = set_reg s (rx w) v := by
  unfold exec_alu at h
  split at h
  · rename_i v _
    injection h with h1
    injection h1 with h2 h3
    exact ⟨h3.symm, v, h2.symm⟩
  · cases h

theorem check_addr_done_state (s s1 : Machine) (addr : Nat)
    (h : check_addr s addr = .done s1) : s1 = s := by
  unfold check_addr at h
  split at h
  · cases h
  · split at h
    · cases h
    · injection h with h2; exact h2.symm

/-- When `exec` stops in a fatal error, the globals are those of the call. -/
theorem exec_fatal_state (s s1 : Machine) (w : Nat) (e : Fatal)
    (h : exec s w = .fatal e s1) : s1 = s := by
  rcases exec_shape s w with ⟨_, hx⟩ | ⟨_, hx⟩ | ⟨_, hx⟩ | hop | hop | hop | ⟨_, hx⟩ | ⟨_, hx⟩
  · rw [hx] at h; exact exec_alu_fatal_state _ _ _ _ _ _ _ h
  · rw [hx] at h; exact exec_alu_fatal_state _ _ _ _ _ _ _ h
  · rw [hx] at h; cases h
  · rcases hop with hop | hop
    · rw [exec_LD s w hop] at h
      split at h
      · split at h <;> cases h
      · rename_i e1 s2 hc
        injection h with h1 h2
        subst h2
        exact check_addr_fatal_state s s2 _ e1 hc
      · cases h
    · rw [exec_ST s w hop] at h
      split at h
      · split at h <;> cases h
      · rename_i e1 s2 hc
        injection h with h1 h2
        subst h2
        exact check_addr_fatal_state s s2 _ e1 hc
      · cases h
  · rw [exec_jump_eq s w hop] at h; cases h
  · rw [exec_branch_eq s w hop] at h; cases h
  · rw [hx] at h; injection h with _ h2; exact h2.symm
  · rw [hx] at h; injection h with _ h2; exact h2.symm

/-- What `exec` leaves untouched when it returns: the instruction count and the memory
size; the value returned is 0 or 1, and the pc is unchanged when it is 0. -/
theorem exec_frame (s s1 : Machine) (w r : Nat) (h : exec s w = .done (s1, r)) :
    s1.inst_cnt = s.inst_cnt ∧ s1.mem_size = s.mem_size ∧ (r = 0 ∨ r = 1) ∧
    (r = 0 → s1.pc = s.pc) := by
  rcases exec_shape s w with ⟨_, hx⟩ | ⟨_, hx⟩ | ⟨_, hx⟩ | hop | hop | hop | ⟨_, hx⟩ | ⟨_, hx⟩
  · rw [hx] at h
    obtain ⟨hr, v, hs⟩ := exec_alu_frame _ _ _ _ _ _ _ h
    subst hs hr
    simp [set_reg]
  · rw [hx] at h
    obtain ⟨hr, v, hs⟩ := exec_alu_frame _ _ _ _ _ _ _ h
    subst hs hr
    simp [set_reg]
  · rw [hx] at h
    injection h with h1
    injection h1 with h2 h3
    subst h2 h3
    simp [set_reg]
  · rcases hop with hop | hop
    · rw [exec_LD s w hop] at h
      split at h
      · rename_i s2 hc
        have := check_addr_done_state s s2 _ hc
        subst this
        split at h
        · injection h with h1
          injection h1 with h2 h3
          subst h2 h3
          simp [set_reg]
        · cases h
      · cases h
      · cases h
    · rw [exec_ST s w hop] at h
      split at h
      · rename_i s2 hc
        have := check_addr_done_state s s2 _ hc
        subst this
        split at h
        · injection h with h1
          injection h1 with h2 h3
          subst h2 h3
          simp [set_mem]
        · cases h
      · cases h
      · cases h
  · rw [exec_jump_eq s w hop] at h
    injection h with h1
    injection h1 with h2 h3
    subst h2 h3
    simp [set_reg, set_pc]
  · rw [exec_branch_eq s w hop] at h
    injection h with h1
    injection h1 with h2 h3
    subst h2 h3
    simp
    split <;> simp
  · rw [hx] at h; cases h
  · rw [hx] at h; cases h

/-! ## C18: fatal errors of `exec` -/

theorem unknown_op_iff (w : Nat) :
    unknown_op w ↔
      (opcode w ≠ 0 ∧ opcode w ≠ 1 ∧ opcode w ≠ 6 ∧ opcode w ≠ 7 ∧ opcode w ≠ 18 ∧
       opcode w ≠ 19 ∧ opcode w ≠ 24 ∧ opcode w ≠ 25 ∧ opcode w ≠ 32 ∧ opcode w ≠ 33 ∧
       opcode w ≠ 40 ∧ opcode w ≠ 41 ∧ opcode w ≠ 42 ∧ opcode w ≠ 43 ∧ opcode w ≠ 44 ∧
       opcode w ≠ 45 ∧ opcode w ≠ 48) := by
  unfold unknown_op
  simp only [List.mem_cons, List.mem_singleton, List.not_mem_nil, or_false, not_or]

/-- C18: for every state and every word whose opcode is not LD or ST, `exec` is a fatal
error exactly when the opcode is SYS (48), or is none of the 17 table values, or is IAI
or IAR (0, 1) with func1 in {10, 11, 14, 15}, or is CI or CR (6, 7) with func1 >= 8; and
whenever `exec` stops in a fatal error the state is the one it was called in. -/
theorem exec_fatal_iff (s : Machine) (w : Nat) (hld : opcode w ≠ 24) (hst : opcode w ≠ 25) :
    ((exec s w).isFatal = true ↔
      (opcode w = 48 ∨
       opcode w ∉ [0, 1, 6, 7, 18, 19, 24, 25, 32, 33, 40, 41, 42, 43, 44, 45, 48] ∨
       ((opcode w = 0 ∨ opcode w = 1) ∧
         (func1 w = 10 ∨ func1 w = 11 ∨ func1 w = 14 ∨ func1 w = 15)) ∨
       ((opcode w = 6 ∨ opcode w = 7) ∧ 8 ≤ func1 w))) ∧
    (∀ e s1, exec s w = .fatal e s1 → s1 = s) := by
  refine ⟨?_, fun e s1 h => exec_fatal_state s s1 w e h⟩
  change _ ↔ (opcode w = 48 ∨ unknown_op w ∨ _ ∨ _)
  rw [unknown_op_iff]
  rcases exec_shape s w with ⟨hop, hx⟩ | ⟨hop, hx⟩ | ⟨hop, hx⟩ | hop | hop | hop | ⟨hop, hx⟩ |
    ⟨hop, hx⟩
  · rw [hx, exec_alu_fatal_iff]
    rcases alu_ia_cases (func1 w) (i32 (s.reg (ra w)))
      (if opcode w = 0 then imm_i w else i32 (s.reg (rb w))) (func1_lt w) with
      ⟨hf, he⟩ | ⟨hf, v, hv⟩
    · constructor
      · intro _; right; right; left; exact ⟨hop, hf⟩
      · intro _; exact ⟨_, he⟩
    · constructor
      · rintro ⟨e, h⟩; rw [hv] at h; cases h
      · intro h
        rcases h with h | h | ⟨_, h⟩ | ⟨h, _⟩
        · omega
        · omega
        · exact absurd h hf
        · omega
  · rw [hx, exec_alu_fatal_iff]
    rcases alu_c_cases (func1 w) (i32 (s.reg (ra w)))
      (if opcode w = 6 then imm_i w else i32 (s.reg (rb w))) with ⟨hf, he⟩ | ⟨hf, v, hv⟩
    · constructor
      · intro _; right; right; right; exact ⟨hop, hf⟩
      · intro _; exact ⟨_, he⟩
    · constructor
      · rintro ⟨e, h⟩; rw [hv] at h; cases h
      · intro h
        rcases h with h | h | ⟨h, _⟩ | ⟨_, h⟩
        · omega
        · omega
        · omega
        · omega
  · rw [hx]
    constructor
    · intro h; cases h
    · intro h
      rcases h with h | h | ⟨h, _⟩ | ⟨h, _⟩ <;> omega
  · omega
  · rw [exec_jump_eq s w hop]
    constructor
    · intro h; cases h
    · intro h
      rcases h with h | h | ⟨h, _⟩ | ⟨h, _⟩ <;> omega
  · rw [exec_branch_eq s w hop]
    constructor
    · intro h; cases h
    · intro h
      rcases h with h | h | ⟨h, _⟩ | ⟨h, _⟩ <;> omega
  · rw [hx]
    constructor
    · intro _; left; exact hop
    · intro _; rfl
  · rw [hx]
    constructor
    · intro _; right; left; exact (unknown_op_iff w).1 hop
    · intro _; rfl

/-- C18 at four words: SYS (0xC0000000) and the unknown opcode 63 (0xFC000000) are fatal,
IAI with func1 = 10 (0x0000000A) is fatal, IAI with func1 = 0 (0x00000000) is not. -/
theorem exec_fatal_iff_witness :
    (exec globals 0xC0000000).isFatal = true ∧ (exec globals 0xFC000000).isFatal = true ∧
    (exec globals 0x0000000A).isFatal = true ∧ (exec globals 0x00000000).isFatal = false :=
  ⟨(exec_fatal_iff globals 0xC0000000 (by decide) (by decide)).1.2 (Or.inl (by decide)),
   (exec_fatal_iff globals 0xFC000000 (by decide) (by decide)).1.2
     (Or.inr (Or.inl (by decide))),
   (exec_fatal_iff globals 0x0000000A (by decide) (by decide)).1.2
     (Or.inr (Or.inr (Or.inl (by decide)))),
   by
     have h := (exec_fatal_iff globals 0x00000000 (by decide) (by decide)).1
     cases hf : (exec globals 0x00000000).isFatal with
     | false => rfl
     | true => exact absurd (h.1 hf) (by decide)⟩

/-! ## C20: a 32-bit constant in two steps -/

theorem alu_or (a b : Int) : alu ALU_IA 6 a b = .ok (u32 a ||| u32 b) := by
  obtain ⟨h0, h1, h2, h3, h4, h5, h6, _⟩ := func_vals
  unfold alu
  simp only [h0, h1, h2, h3, h4, h5, h6]
  rfl

/-- C20: for every 32-bit value c and register index r, `exec` of the LIH word
(opcode 19, rx = r, low 21 bits c >> 11) sets reg[r] = (imm_n * 2^11) mod 2^32, which is
c with its low 11 bits cleared, and `exec` of the IAI word (opcode 0, rx = ra = r, 12-bit
immediate field c & 0x7FF, func1 = OR = 6) then leaves reg[r] = c; both return 0 and
change no other register, no memory word and not the pc. -/
theorem lih_or_builds_constant (s : Machine) (c r : Nat) (hc : c < 4294967296)
    (hr : r < 32) :
    exec s (19 * 2 ^ 26 + r * 2 ^ 21 + c / 2 ^ 11) = .done (set_reg s r (c - c % 2048), 0) ∧
    u32 (imm_n (19 * 2 ^ 26 + r * 2 ^ 21 + c / 2 ^ 11) * 2 ^ 11) = c - c % 2048 ∧
    exec (set_reg s r (c - c % 2048)) (r * 2 ^ 21 + r * 2 ^ 16 + c % 2048 * 2 ^ 4 + 6)
      = .done (set_reg s r c, 0) := by
  have hi : u32 (imm_n (19 * 2 ^ 26 + r * 2 ^ 21 + c / 2 ^ 11) * 2 ^ 11) = c - c % 2048 := by
    rw [imm_n_eq]
    unfold u32
    push_cast
    omega
  have ho1 : opcode (19 * 2 ^ 26 + r * 2 ^ 21 + c / 2 ^ 11) = 19 := by
    unfold opcode; rw [Nat.shiftRight_eq_div_pow]; omega
  have hx1 : rx (19 * 2 ^ 26 + r * 2 ^ 21 + c / 2 ^ 11) = r := by
    unfold rx; rw [and_31, Nat.shiftRight_eq_div_pow]; omega
  have ho2 : opcode (r * 2 ^ 21 + r * 2 ^ 16 + c % 2048 * 2 ^ 4 + 6) = 0 := by
    unfold opcode; rw [Nat.shiftRight_eq_div_pow]; omega
  have hx2 : rx (r * 2 ^ 21 + r * 2 ^ 16 + c % 2048 * 2 ^ 4 + 6) = r := by
    unfold rx; rw [and_31, Nat.shiftRight_eq_div_pow]
    have hd : (r * 2 ^ 21 + r * 2 ^ 16 + c % 2048 * 2 ^ 4 + 6) / 2 ^ 21 = r := by
      have hlt : r * 2 ^ 16 + c % 2048 * 2 ^ 4 + 6 < 2 ^ 21 := by omega
      omega
    rw [hd]
    omega
  have ha2 : ra (r * 2 ^ 21 + r * 2 ^ 16 + c % 2048 * 2 ^ 4 + 6) = r := by
    unfold ra; rw [and_31, Nat.shiftRight_eq_div_pow]; omega
  have hf2 : func1 (r * 2 ^ 21 + r * 2 ^ 16 + c % 2048 * 2 ^ 4 + 6) = 6 := by
    unfold func1
    have : ∀ x : Nat, x &&& 0xf = x % 16 := fun x => Nat.and_pow_two_sub_one_eq_mod x 4
    rw [this]; omega
  have him : imm_i (r * 2 ^ 21 + r * 2 ^ 16 + c % 2048 * 2 ^ 4 + 6) = ((c % 2048 : Nat) : Int) := by
    rw [imm_i_eq]
    push_cast
    omega
  have hu : u32 ((c % 2048 : Nat) : Int) = c % 2048 := by unfold u32; omega
  have hm : (c - c % 2048) % 4294967296 = c - c % 2048 := by omega
  have hor : (c - c % 2048) ||| c % 2048 = c := by
    have e : (c - c % 2048) ||| c % 2048 = c - c % 2048 + c % 2048 :=
      or_eq_add 11 (by omega) (by omega)
    rw [e]
    omega
  obtain ⟨v0, v1, v6, v7, v18, v19, _⟩ := opcode_vals
  refine ⟨?_, hi, ?_⟩
  · have h : exec s (19 * 2 ^ 26 + r * 2 ^ 21 + c / 2 ^ 11)
        = .done (set_reg s (rx (19 * 2 ^ 26 + r * 2 ^ 21 + c / 2 ^ 11))
            (u32 (shl32 (imm_n (19 * 2 ^ 26 + r * 2 ^ 21 + c / 2 ^ 11)) 11)), 0) := by
      unfold exec
      simp only [ho1, v0, v1, v6, v7, v18, v19]
      rfl
    rw [h, hx1]
    unfold shl32
    rw [u32_wrap32, hi]
  · have h : exec (set_reg s r (c - c % 2048)) (r * 2 ^ 21 + r * 2 ^ 16 + c % 2048 * 2 ^ 4 + 6)
        = exec_alu (set_reg s r (c - c % 2048)) (r * 2 ^ 21 + r * 2 ^ 16 + c % 2048 * 2 ^ 4 + 6)
            ALU_IA (i32 ((set_reg s r (c - c % 2048)).reg
              (ra (r * 2 ^ 21 + r * 2 ^ 16 + c % 2048 * 2 ^ 4 + 6))))
            (imm_i (r * 2 ^ 21 + r * 2 ^ 16 + c % 2048 * 2 ^ 4 + 6)) := by
      unfold exec
      simp only [ho2, v0]
      rfl
    rw [h]
    unfold exec_alu
    rw [hf2, alu_or, ha2, him, hx2]
    have hreg : (set_reg s r (c - c % 2048)).reg r = c - c % 2048 := by simp [set_reg]
    rw [hreg, u32_i32]
    rw [hu, hm, hor]
    simp [set_reg]

/-- C20 for c = 0xDEADBEEF and r = 3 from the initial globals: the LIH word 0x4C7BD5B7
gives reg[3] = 0xDEADB800 and the IAI word 0x00636EF6 then gives reg[3] = 0xDEADBEEF. -/
theorem lih_or_builds_constant_witness :
    exec globals 0x4C7BD5B7 = .done (set_reg globals 3 0xDEADB800, 0) ∧
    exec (set_reg globals 3 0xDEADB800) 0x00636EF6 = .done (set_reg globals 3 0xDEADBEEF, 0) :=
  have h := lih_or_builds_constant globals 0xDEADBEEF 3 (by decide) (by decide)
  ⟨h.1, h.2.2⟩

/-! ## C16: one pass of the run loop -/

theorem fetch_in_mem (s : Machine) (hm : s.mem_size % 4 = 0) (hpc : s.pc < s.mem_size) :
    in_mem s ((s.pc >>> 2 : Nat) : Int) := by
  unfold in_mem
  rw [Nat.shiftRight_eq_div_pow]
  constructor <;> omega

theorem loop_body_fatal (s : Machine) (hpc : s.pc ≥ s.mem_size) :
    loop_body s = .fatal .pc_out_of_range s := by
  unfold loop_body
  rw [if_pos hpc]

theorem loop_body_halt (s : Machine) (hm : s.mem_size % 4 = 0) (hpc : s.pc < s.mem_size)
    (hw : s.mem (s.pc >>> 2) = 0xFFFFFFFF) : loop_body s = .done (.brk s) := by
  unfold loop_body
  rw [if_neg (by omega), if_pos (fetch_in_mem s hm hpc), if_pos (by rw [hw]; rfl)]

theorem loop_body_exec (s s1 : Machine) (r : Nat) (hm : s.mem_size % 4 = 0)
    (hpc : s.pc < s.mem_size) (hw : s.mem (s.pc >>> 2) ≠ 0xFFFFFFFF)
    (hx : exec s (s.mem (s.pc >>> 2)) = .done (s1, r)) :
    loop_body s = .done (.next
      { (if r = 0 then set_pc s1 ((s1.pc + 4) % 4294967296) else s1) with
        inst_cnt := (if r = 0 then set_pc s1 ((s1.pc + 4) % 4294967296) else s1).inst_cnt + 1 })
    := by
  unfold loop_body
  rw [if_neg (by omega), if_pos (fetch_in_mem s hm hpc), if_neg (by unfold HALT_CODE; exact hw),
    hx]

/-- A pass that reaches the end of the loop body has executed one instruction. -/
theorem loop_body_next (s s1 : Machine) (h : loop_body s = .done (.next s1)) :
    ∃ s2 r, exec s (s.mem (s.pc >>> 2)) = .done (s2, r) ∧
      s1 = { (if r = 0 then set_pc s2 ((s2.pc + 4) % 4294967296) else s2) with
        inst_cnt := s.inst_cnt + 1 } := by
  unfold loop_body at h
  by_cases h1 : s.pc ≥ s.mem_size
  · rw [if_pos h1] at h; cases h
  rw [if_neg h1] at h
  by_cases h2 : in_mem s ((s.pc >>> 2 : Nat) : Int)
  · rw [if_pos h2] at h
    by_cases h3 : s.mem (s.pc >>> 2) = HALT_CODE
    · rw [if_pos h3] at h
      injection h with h4
      cases h4
    rw [if_neg h3] at h
    split at h
    · rename_i s2 r hx
      injection h with h4
      injection h4 with h5
      refine ⟨s2, r, hx, ?_⟩
      rw [← h5]
      have hf := (exec_frame s s2 _ r hx).1
      split <;> simp [set_pc, hf]
    · cases h
    · cases h
  · rw [if_neg h2] at h; cases h

theorem loop_body_brk (s s1 : Machine) (h : loop_body s = .done (.brk s1)) : s1 = s := by
  unfold loop_body at h
  by_cases h1 : s.pc ≥ s.mem_size
  · rw [if_pos h1] at h; cases h
  rw [if_neg h1] at h
  by_cases h2 : in_mem s ((s.pc >>> 2 : Nat) : Int)
  · rw [if_pos h2] at h
    by_cases h3 : s.mem (s.pc >>> 2) = HALT_CODE
    · rw [if_pos h3] at h
      injection h with h4
      injection h4 with h5
      exact h5.symm
    rw [if_neg h3] at h
    split at h
    · injection h with h4
      cases h4
    · cases h
    · cases h
  · rw [if_neg h2] at h; cases h

theorem loop_n_succ_next (n : Nat) (s s1 : Machine) (h : loop_body s = .done (.next s1)) :
    loop_n (n + 1) s = loop_n n s1 := by
  rw [loop_n, h]

/-- The first pass of `loop_n (n + 1)`: either it goes on and the rest is `loop_n n`, or
the outcome is that of the first pass. -/
theorem loop_n_succ_cases (n : Nat) (s : Machine) :
    (∃ s1, loop_body s = .done (.next s1) ∧ loop_n (n + 1) s = loop_n n s1) ∨
    ((∀ s1, loop_body s ≠ .done (.next s1)) ∧ loop_n (n + 1) s = loop_body s) := by
  cases h : loop_body s with
  | done it =>
    cases it with
    | brk s1 => right; exact ⟨(fun s1 hc => by cases hc), (by rw [loop_n, h])⟩
    | next s1 => left; exact ⟨s1, rfl, by rw [loop_n, h]⟩
  | fatal e s1 => right; exact ⟨(fun s1 hc => by cases hc), (by rw [loop_n, h])⟩
  | undef => right; exact ⟨(fun s1 hc => by cases hc), (by rw [loop_n, h])⟩

theorem loop_n_next_count (n : Nat) : ∀ s sf : Machine,
    loop_n n s = .done (.next sf) → sf.inst_cnt = s.inst_cnt + n := by
  induction n with
  | zero =>
    intro s sf h
    rw [loop_n] at h
    injection h with h1
    injection h1 with h2
    subst h2
    simp
  | succ n ih =>
    intro s sf h
    rcases loop_n_succ_cases n s with ⟨s1, hb, hl⟩ | ⟨hb, hl⟩
    · rw [hl] at h
      have h1 := ih s1 sf h
      obtain ⟨s2, r, _, hs⟩ := loop_body_next s s1 hb
      have h2 : s1.inst_cnt = s.inst_cnt + 1 := by rw [hs]
      rw [h1, h2]
      push_cast
      omega
    · rw [hl] at h
      exact absurd h (hb sf)

theorem loop_n_brk_count (n : Nat) : ∀ s sf : Machine,
    loop_n n s = .done (.brk sf) →
    ∃ k, k < n ∧ loop_n k s = .done (.next sf) ∧ loop_body sf = .done (.brk sf) ∧
      sf.inst_cnt = s.inst_cnt + k := by
  induction n with
  | zero =>
    intro s sf h
    rw [loop_n] at h
    cases h
  | succ n ih =>
    intro s sf h
    rcases loop_n_succ_cases n s with ⟨s1, hb, hl⟩ | ⟨hb, hl⟩
    · rw [hl] at h
      obtain ⟨k, hk, hn, hbr, hc⟩ := ih s1 sf h
      refine ⟨k + 1, by omega, ?_, hbr, ?_⟩
      · rw [loop_n_succ_next k s s1 hb]; exact hn
      · obtain ⟨s2, r, _, hs⟩ := loop_body_next s s1 hb
        have h2 : s1.inst_cnt = s.inst_cnt + 1 := by rw [hs]
        rw [hc, h2]
        push_cast
        omega
    · rw [hl] at h
      have hs := loop_body_brk s sf h
      subst hs
      exact ⟨0, by omega, by rw [loop_n], h, by simp⟩

/-! ## Bytes of memory words -/

theorem byte_of_set_same (w k c : Nat) (hk : k < 4) (hc : c < 256) :
    byte_of (w - byte_of w k * 256 ^ k + c * 256 ^ k) k = c := by
  unfold byte_of
  interval_cases k <;> omega

theorem byte_of_set_other (w k j c : Nat) (hk : k < 4) (hj : j < 4) (hjk : j ≠ k)
    (hc : c < 256) :
    byte_of (w - byte_of w k * 256 ^ k + c * 256 ^ k) j = byte_of w j := by
  unfold byte_of
  interval_cases k <;> interval_cases j <;> omega

theorem set_word_lt (w k c : Nat) (hk : k < 4) (hc : c < 256) (hw : w < 4294967296) :
    w - byte_of w k * 256 ^ k + c * 256 ^ k < 4294967296 := by
  unfold byte_of
  interval_cases k <;> omega

theorem word_of_bytes (w : Nat) (hw : w < 4294967296) :
    w = byte_of w 0 + 256 * byte_of w 1 + 65536 * byte_of w 2 + 16777216 * byte_of w 3 := by
  unfold byte_of
  omega

theorem get_set_byte_same (s : Machine) (a c : Nat) :
    get_byte (set_byte s a c) a = c % 256 := by
  unfold get_byte set_byte set_mem
  simp only [Function.update_same]
  exact byte_of_set_same _ _ _ (Nat.mod_lt _ (by decide)) (Nat.mod_lt _ (by decide))

theorem get_set_byte_other (s : Machine) (a b c : Nat) (hab : b ≠ a) :
    get_byte (set_byte s a c) b = get_byte s b := by
  unfold get_byte set_byte set_mem
  by_cases hw : b / 4 = a / 4
  · rw [hw]
    simp only [Function.update_same]
    exact byte_of_set_other _ _ _ _ (Nat.mod_lt _ (by decide)) (Nat.mod_lt _ (by decide))
      (by omega) (Nat.mod_lt _ (by decide))
  · simp only [Function.update_noteq hw]

theorem set_byte_frame (s : Machine) (a c : Nat) :
    (set_byte s a c).reg = s.reg ∧ (set_byte s a c).pc = s.pc ∧
    (set_byte s a c).mem_size = s.mem_size ∧ (set_byte s a c).inst_cnt = s.inst_cnt := by
  simp [set_byte, set_mem]

theorem set_byte_words (s : Machine) (a c : Nat) (h : ∀ j, s.mem j < 4294967296) :
    ∀ j, (set_byte s a c).mem j < 4294967296 := by
  intro j
  unfold set_byte set_mem
  by_cases hj : j = a / 4
  · rw [hj]
    simp only [Function.update_same]
    exact set_word_lt _ _ _ (Nat.mod_lt _ (by decide)) (Nat.mod_lt _ (by decide)) (h _)
  · simp only [Function.update_noteq hj]
    exact h j

/-! ## C19: the loader -/

theorem copy_loop_ok (ep : Nat) (k : Nat) : ∀ (i : Nat) (fp : List (Fin 256)) (s : Machine),
    k ≤ fp.length → ep + i + k ≤ s.mem_size →
    ∃ s1, copy_loop ep k i fp s = .done (s1, fp.drop k) ∧
      s1.reg = s.reg ∧ s1.pc = s.pc ∧ s1.mem_size = s.mem_size ∧ s1.inst_cnt = s.inst_cnt ∧
      ((∀ j, s.mem j < 4294967296) → ∀ j, s1.mem j < 4294967296) ∧
      ∀ a, get_byte s1 a =
        if ep + i ≤ a ∧ a < ep + i + k then (fp.map Fin.val).getD (a - (ep + i)) 0
        else get_byte s a := by
  induction k with
  | zero =>
    intro i fp s _ _
    refine ⟨s, by simp [copy_loop], rfl, rfl, rfl, rfl, fun h => h, ?_⟩
    intro a
    rw [if_neg (by omega)]
  | succ k ih =>
    intro i fp s hlen hb
    cases fp with
    | nil => simp at hlen
    | cons c rest =>
      have hlen1 : k ≤ rest.length := by simpa using hlen
      have hfr := set_byte_frame s (ep + i) c.val
      have hb1 : ep + (i + 1) + k ≤ (set_byte s (ep + i) c.val).mem_size := by
        rw [hfr.2.2.1]; omega
      obtain ⟨s1, h1, h2, h3, h4, h5, h6, h7⟩ :=
        ih (i + 1) rest (set_byte s (ep + i) c.val) hlen1 hb1
      refine ⟨s1, ?_, by rw [h2, hfr.1], by rw [h3, hfr.2.1], by rw [h4, hfr.2.2.1],
        by rw [h5, hfr.2.2.2], fun h => h6 (set_byte_words s _ _ h), ?_⟩
      · rw [copy_loop, if_pos (by omega), h1]
        rfl
      · intro a
        rw [h7 a]
        by_cases ha : a = ep + i
        · subst ha
          rw [if_neg (by omega), if_pos (by omega), get_set_byte_same]
          rw [Nat.mod_eq_of_lt c.isLt]
          simp
        · rw [get_set_byte_other _ _ _ _ ha]
          by_cases hr : ep + (i + 1) ≤ a ∧ a < ep + (i + 1) + k
          · rw [if_pos hr, if_pos (by omega)]
            have e : a - (ep + i) = (a - (ep + (i + 1))) + 1 := by omega
            rw [e]
            simp
          · rw [if_neg hr, if_neg (by omega)]

theorem copy_loop_eof (ep : Nat) (k : Nat) : ∀ (i : Nat) (fp : List (Fin 256)) (s : Machine),
    fp.length < k → ep + i + fp.length ≤ s.mem_size →
    ∃ s1, copy_loop ep k i fp s = .fatal .reached_eof s1 := by
  induction k with
  | zero => intro i fp s h _; omega
  | succ k ih =>
    intro i fp s hlen hb
    cases fp with
    | nil => exact ⟨s, by rw [copy_loop]⟩
    | cons c rest =>
      have hlen1 : rest.length < k := by simpa using hlen
      have hfr := set_byte_frame s (ep + i) c.val
      simp only [List.length_cons] at hb
      have hb1 : ep + (i + 1) + rest.length ≤ (set_byte s (ep + i) c.val).mem_size := by
        rw [hfr.2.2.1]; omega
      obtain ⟨s1, h1⟩ := ih (i + 1) rest (set_byte s (ep + i) c.val) hlen1 hb1
      exact ⟨s1, by rw [copy_loop, if_pos (by omega), h1]⟩

theorem u32_shl32_byte (b i : Nat) (hb : b < 256) (hi : i = 0 ∨ i = 8 ∨ i = 16 ∨ i = 24) :
    u32 (shl32 (b : Int) i) = b * 2 ^ i := by
  unfold shl32
  rw [u32_wrap32]
  unfold u32
  rcases hi with h | h | h | h <;> subst h <;> omega

theorem read_prog_size_eq (b0 b1 b2 b3 : Fin 256) (payload : List (Fin 256)) :
    read_prog_size (b0 :: b1 :: b2 :: b3 :: payload)
      = (b0.val + 256 * b1.val + 65536 * b2.val + 16777216 * b3.val, payload) := by
  have h0 := b0.isLt
  have h1 := b1.isLt
  have h2 := b2.isLt
  have h3 := b3.isLt
  unfold read_prog_size
  simp only [List.foldl, fgetc]
  rw [u32_shl32_byte _ 0 h0 (by omega), u32_shl32_byte _ 8 h1 (by omega),
    u32_shl32_byte _ 16 h2 (by omega), u32_shl32_byte _ 24 h3 (by omega)]
  congr 1
  omega

theorem load_file_unfold (ep : Nat) (b0 b1 b2 b3 : Fin 256) (payload : List (Fin 256))
    (s : Machine) :
    load_file ep (b0 :: b1 :: b2 :: b3 :: payload) s =
      match copy_loop ep (b0.val + 256 * b1.val + 65536 * b2.val + 16777216 * b3.val) 0
          payload s with
      | .done (s1, fp1) =>
        if (fgetc fp1).1 ≠ -1 then .fatal .file_remained s1 else .done s1
      | .fatal e s1 => .fatal e s1
      | .undef => .undef := by
  unfold load_file
  simp only [read_prog_size_eq]

theorem load_file_ok (ep L : Nat) (b0 b1 b2 b3 : Fin 256) (payload : List (Fin 256))
    (s : Machine) (hL : L = b0.val + 256 * b1.val + 65536 * b2.val + 16777216 * b3.val)
    (h : ep + L ≤ s.mem_size) (hlen : payload.length = L) :
    ∃ s1, load_file ep (b0 :: b1 :: b2 :: b3 :: payload) s = .done s1 ∧
      s1.reg = s.reg ∧ s1.pc = s.pc ∧ s1.mem_size = s.mem_size ∧ s1.inst_cnt = s.inst_cnt ∧
      ((∀ j, s.mem j < 4294967296) → ∀ j, s1.mem j < 4294967296) ∧
      ∀ a, get_byte s1 a =
        if ep ≤ a ∧ a < ep + L then (payload.map Fin.val).getD (a - ep) 0
        else get_byte s a := by
  obtain ⟨s1, h1, h2, h3, h4, h5, h6, h7⟩ :=
    copy_loop_ok ep L 0 payload s (by omega) (by omega)
  refine ⟨s1, ?_, h2, h3, h4, h5, h6, ?_⟩
  · rw [load_file_unfold, ← hL, h1]
    have hd : List.drop L payload = [] := List.drop_eq_nil_of_le (by omega)
    rw [hd]
    rfl
  · intro a
    have := h7 a
    simpa using this

theorem load_file_eof (ep L : Nat) (b0 b1 b2 b3 : Fin 256) (payload : List (Fin 256))
    (s : Machine) (hL : L = b0.val + 256 * b1.val + 65536 * b2.val + 16777216 * b3.val)
    (h : ep + L ≤ s.mem_size) (hlen : payload.length < L) :
    ∃ s1, load_file ep (b0 :: b1 :: b2 :: b3 :: payload) s = .fatal .reached_eof s1 := by
  obtain ⟨s1, h1⟩ := copy_loop_eof ep L 0 payload s hlen (by omega)
  exact ⟨s1, by rw [load_file_unfold, ← hL, h1]⟩

theorem load_file_remained (ep L : Nat) (b0 b1 b2 b3 : Fin 256) (payload : List (Fin 256))
    (s : Machine) (hL : L = b0.val + 256 * b1.val + 65536 * b2.val + 16777216 * b3.val)
    (h : ep + L ≤ s.mem_size) (hlen : L < payload.length) :
    ∃ s1, load_file ep (b0 :: b1 :: b2 :: b3 :: payload) s = .fatal .file_remained s1 := by
  obtain ⟨s1, h1, _⟩ := copy_loop_ok ep L 0 payload s (by omega) (by omega)
  refine ⟨s1, ?_⟩
  rw [load_file_unfold, ← hL, h1]
  cases hd : List.drop L payload with
  | nil =>
    have := List.drop_eq_nil_iff.1 hd
    omega
  | cons c rest =>
    have hc : (fgetc (c :: rest)).1 ≠ -1 := by
      simp only [fgetc]
      omega
    simp only [hc, ne_eq, not_false_eq_true, if_true]

/-- C19: for every file whose first four bytes give the little-endian length L and every
state with entry_point + L <= mem_size, `load_file` succeeds exactly when L bytes follow
the header; on success memory byte entry_point + i is payload byte i for i < L, every
other memory byte and every other global is unchanged; with fewer than L bytes after the
header it stops with the "reached EOF" error, with more with the "input file remained"
error. -/
theorem load_file_spec (ep L : Nat) (b0 b1 b2 b3 : Fin 256) (payload : List (Fin 256))
    (s : Machine) (hL : L = b0.val + 256 * b1.val + 65536 * b2.val + 16777216 * b3.val)
    (h : ep + L ≤ s.mem_size) :
    ((∃ s1, load_file ep (b0 :: b1 :: b2 :: b3 :: payload) s = .done s1) ↔
      (b0 :: b1 :: b2 :: b3 :: payload).length = 4 + L) ∧
    (payload.length = L →
      ∃ s1, load_file ep (b0 :: b1 :: b2 :: b3 :: payload) s = .done s1 ∧
        s1.reg = s.reg ∧ s1.pc = s.pc ∧ s1.mem_size = s.mem_size ∧ s1.inst_cnt = s.inst_cnt ∧
        ∀ a, get_byte s1 a =
          if ep ≤ a ∧ a < ep + L then (payload.map Fin.val).getD (a - ep) 0
          else get_byte s a) ∧
    (payload.length < L →
      ∃ s1, load_file ep (b0 :: b1 :: b2 :: b3 :: payload) s = .fatal .reached_eof s1) ∧
    (L < payload.length →
      ∃ s1, load_file ep (b0 :: b1 :: b2 :: b3 :: payload) s = .fatal .file_remained s1) := by
  refine ⟨?_, ?_, load_file_eof ep L b0 b1 b2 b3 payload s hL h,
    load_file_remained ep L b0 b1 b2 b3 payload s hL h⟩
  · constructor
    · rintro ⟨s1, h1⟩
      simp only [List.length_cons]
      rcases Nat.lt_trichotomy payload.length L with hlt | heq | hgt
      · obtain ⟨s2, h2⟩ := load_file_eof ep L b0 b1 b2 b3 payload s hL h hlt
        rw [h2] at h1; cases h1
      · omega
      · obtain ⟨s2, h2⟩ := load_file_remained ep L b0 b1 b2 b3 payload s hL h hgt
        rw [h2] at h1; cases h1
    · intro hlen
      simp only [List.length_cons] at hlen
      obtain ⟨s1, h1, _⟩ := load_file_ok ep L b0 b1 b2 b3 payload s hL h (by omega)
      exact ⟨s1, h1⟩
  · intro hlen
    obtain ⟨s1, h1, h2, h3, h4, h5, _, h7⟩ := load_file_ok ep L b0 b1 b2 b3 payload s hL h hlen
    exact ⟨s1, h1, h2, h3, h4, h5, h7⟩

/-- C19 at the entry point 0x2000 with the default memory size: the file 02 00 00 00 AA BB
loads (bytes 0x2000 and 0x2001 become 0xAA and 0xBB), the file 02 00 00 00 AA stops with
"reached EOF" and the file 02 00 00 00 AA BB CC with "input file remained". -/
theorem load_file_spec_witness :
    (∃ s1, load_file 0x2000 [2, 0, 0, 0, 0xAA, 0xBB] globals = .done s1 ∧
      get_byte s1 0x2000 = 0xAA ∧ get_byte s1 0x2001 = 0xBB ∧
      get_byte s1 0x2002 = get_byte globals 0x2002) ∧
    (∃ s1, load_file 0x2000 [2, 0, 0, 0, 0xAA] globals = .fatal .reached_eof s1) ∧
    (∃ s1, load_file 0x2000 [2, 0, 0, 0, 0xAA, 0xBB, 0xCC] globals = .fatal .file_remained s1) := by
  refine ⟨?_, ?_, ?_⟩
  · obtain ⟨s1, h1, _, _, _, _, h6⟩ :=
      (load_file_spec 0x2000 2 2 0 0 0 [0xAA, 0xBB] globals (by decide) (by decide)).2.1 rfl
    exact ⟨s1, h1, by rw [h6]; rfl, by rw [h6]; rfl, by rw [h6]; rfl⟩
  · exact (load_file_spec 0x2000 2 2 0 0 0 [0xAA] globals (by decide) (by decide)).2.2.1
      (by decide)
  · exact (load_file_spec 0x2000 2 2 0 0 0 [0xAA, 0xBB, 0xCC] globals (by decide)
      (by decide)).2.2.2 (by decide)

/-- C16: one pass of the run loop from a state whose memory size is a multiple of 4: with
pc >= mem_size it is a fatal error; otherwise, when the word of index pc >> 2 is
0xFFFFFFFF the loop stops with the state unchanged; otherwise, when `exec` of that word
returns, the loop goes on with the instruction count increased by exactly 1, with the pc
equal to the old pc + 4 (mod 2^32) when `exec` returned 0 and to the pc `exec` left when
it returned 1, and with the registers and memory `exec` left.  Hence after n passes that
all go on the count has grown by n, and when the loop is left within n passes the count
has grown by the number k of passes executed before the halt code was fetched. -/
theorem run_loop_pass (s : Machine) (n : Nat) (hm : s.mem_size % 4 = 0) :
    (s.pc ≥ s.mem_size → loop_body s = .fatal .pc_out_of_range s) ∧
    (s.pc < s.mem_size → s.mem (s.pc >>> 2) = 0xFFFFFFFF → loop_body s = .done (.brk s)) ∧
    (s.pc < s.mem_size → s.mem (s.pc >>> 2) ≠ 0xFFFFFFFF →
      ∀ s1 r, exec s (s.mem (s.pc >>> 2)) = .done (s1, r) →
        ∃ s2, loop_body s = .done (.next s2) ∧ s2.inst_cnt = s.inst_cnt + 1 ∧
          (r = 0 ∨ r = 1) ∧ (r = 0 → s2.pc = (s.pc + 4) % 4294967296) ∧
          (r = 1 → s2.pc = s1.pc) ∧ s2.reg = s1.reg ∧ s2.mem = s1.mem ∧
          s2.mem_size = s1.mem_size) ∧
    (∀ sf, loop_n n s = .done (.next sf) → sf.inst_cnt = s.inst_cnt + n) ∧
    (∀ sf, loop_n n s = .done (.brk sf) →
      ∃ k, k < n ∧ loop_n k s = .done (.next sf) ∧ loop_body sf = .done (.brk sf) ∧
        sf.inst_cnt = s.inst_cnt + k) := by
  refine ⟨loop_body_fatal s, loop_body_halt s hm, ?_, loop_n_next_count n s,
    loop_n_brk_count n s⟩
  intro hpc hw s1 r hx
  obtain ⟨hc, _, hr, hp⟩ := exec_frame s s1 _ r hx
  refine ⟨_, loop_body_exec s s1 r hm hpc hw hx, ?_, hr, ?_, ?_, ?_, ?_, ?_⟩
  · rcases hr with h | h <;> subst h <;> simp [set_pc, hc]
  · intro h; subst h; simp [set_pc, hp rfl]
  · intro h; subst h; simp
  · rcases hr with h | h <;> subst h <;> simp [set_pc]
  · rcases hr with h | h <;> subst h <;> simp [set_pc]
  · rcases hr with h | h <;> subst h <;> simp [set_pc]

/-- C16 at the state `st_li_prog`: the first pass executes LI r1, 5 (`exec` returns 0),
the count becomes 1 and the pc 0x2004; the second pass fetches the halt code, and the loop
is left with count 1 after k = 1 executed passes. -/
theorem run_loop_pass_witness :
    (∃ s2, loop_body st_li_prog = .done (.next s2) ∧ s2.inst_cnt = 1 ∧ s2.pc = 0x2004 ∧
      s2.reg 1 = 5) ∧
    (∀ sf, loop_n 5 st_li_prog = .done (.brk sf) →
      ∃ k : Nat, k < 5 ∧ sf.inst_cnt = (k : Int)) := by
  have h := run_loop_pass st_li_prog 5 (by decide)
  constructor
  · obtain ⟨s2, h1, h2, _, h4, _, h6, _⟩ :=
      h.2.2.1 (by decide) (by decide) (set_reg st_li_prog 1 5) 0 rfl
    exact ⟨s2, h1, h2, h4 rfl, by rw [h6]; rfl⟩
  · intro sf hsf
    obtain ⟨k, hk, _, _, hc⟩ := h.2.2.2.2 sf hsf
    exact ⟨k, hk, by rw [hc]; simp [st_li_prog]⟩

/-! ## C17: alignment of the program counter -/

theorem exec_ldst_ret (s s1 : Machine) (w r : Nat) (hop : opcode w = 24 ∨ opcode w = 25)
    (h : exec s w = .done (s1, r)) : r = 0 := by
  rcases hop with hop | hop
  · rw [exec_LD s w hop] at h
    split at h
    · split at h
      · injection h with h1
        injection h1 with _ h3
        exact h3.symm
      · cases h
    · cases h
    · cases h
  · rw [exec_ST s w hop] at h
    split at h
    · split at h
      · injection h with h1
        injection h1 with _ h3
        exact h3.symm
      · cases h
    · cases h
    · cases h

/-- The pc after `exec` returns: unchanged, or the target of a JL, of a JR, or of a taken
conditional branch. -/
theorem exec_pc (s s1 : Machine) (w r : Nat) (h : exec s w = .done (s1, r)) :
    s1.pc = s.pc ∨
    (r = 1 ∧ opcode w = 32 ∧ s1.pc = (((s.pc : Int) + 4 + imm_n w) % 4294967296).toNat) ∨
    (r = 1 ∧ opcode w = 33 ∧ s1.pc = s.reg (ra w) % 4294967296) ∨
    (r = 1 ∧ s1.pc = (((s.pc : Int) + 4 + 4 * imm_c w) % 4294967296).toNat) := by
  rcases exec_shape s w with ⟨_, hx⟩ | ⟨_, hx⟩ | ⟨_, hx⟩ | hop | hop | hop | ⟨_, hx⟩ | ⟨_, hx⟩
  · rw [hx] at h
    obtain ⟨hr, v, hs⟩ := exec_alu_frame _ _ _ _ _ _ _ h
    left; rw [hs]; rfl
  · rw [hx] at h
    obtain ⟨hr, v, hs⟩ := exec_alu_frame _ _ _ _ _ _ _ h
    left; rw [hs]; rfl
  · rw [hx] at h
    injection h with h1
    injection h1 with h2 h3
    left; rw [← h2]; rfl
  · left
    exact (exec_frame s s1 w r h).2.2.2 (exec_ldst_ret s s1 w r hop h)
  · rw [exec_jump_eq s w hop] at h
    injection h with h1
    injection h1 with h2 h3
    rcases hop with hop | hop
    · right; left
      refine ⟨h3.symm, hop, ?_⟩
      rw [← h2, if_pos hop]; rfl
    · right; right; left
      refine ⟨h3.symm, hop, ?_⟩
      rw [← h2, if_neg (by omega)]; rfl
  · rw [exec_branch_eq s w hop] at h
    injection h with h1
    injection h1 with h2 h3
    rw [← h2]
    split
    · right; right; right; exact ⟨h3.symm, rfl⟩
    · left; rfl
  · rw [hx] at h; cases h
  · rw [hx] at h; cases h

/-- One pass of the loop keeps the pc a multiple of 4 unless it executes a JL with an
immediate, or a JR through a register, that is not a multiple of 4. -/
theorem loop_body_aligned (s s1 : Machine) (h : loop_body s = .done (.next s1))
    (hpc : s.pc % 4 = 0)
    (hjl : opcode (s.mem (s.pc >>> 2)) = 32 → imm_n (s.mem (s.pc >>> 2)) % 4 = 0)
    (hjr : opcode (s.mem (s.pc >>> 2)) = 33 → s.reg (ra (s.mem (s.pc >>> 2))) % 4 = 0) :
    s1.pc % 4 = 0 := by
  obtain ⟨s2, r, hx, hs⟩ := loop_body_next s s1 h
  have hr := (exec_frame s s2 _ r hx).2.2.1
  have hp0 := (exec_frame s s2 _ r hx).2.2.2
  have hs1 : s1.pc = if r = 0 then (s2.pc + 4) % 4294967296 else s2.pc := by
    rw [hs]
    split <;> rfl
  rcases hr with hr | hr
  · rw [hs1, if_pos hr, hp0 hr]
    omega
  · rw [hs1, if_neg (by omega)]
    rcases exec_pc s s2 _ r hx with hp | ⟨_, hop, hp⟩ | ⟨_, hop, hp⟩ | ⟨_, hp⟩
    · rw [hp]; exact hpc
    · have := hjl hop
      rw [hp]
      omega
    · have := hjr hop
      rw [hp]
      omega
    · rw [hp]
      omega

theorem loop_n_aligned (n : Nat) : ∀ s sf : Machine, s.pc % 4 = 0 →
    (∀ k sk, k < n → loop_n k s = .done (.next sk) →
      (opcode (sk.mem (sk.pc >>> 2)) = 32 → imm_n (sk.mem (sk.pc >>> 2)) % 4 = 0) ∧
      (opcode (sk.mem (sk.pc >>> 2)) = 33 → sk.reg (ra (sk.mem (sk.pc >>> 2))) % 4 = 0)) →
    loop_n n s = .done (.next sf) → sf.pc % 4 = 0 := by
  induction n with
  | zero =>
    intro s sf hpc _ h
    rw [loop_n] at h
    injection h with h1
    injection h1 with h2
    rw [← h2]; exact hpc
  | succ n ih =>
    intro s sf hpc hj h
    rcases loop_n_succ_cases n s with ⟨s1, hb, hl⟩ | ⟨hb, hl⟩
    · rw [hl] at h
      have h0 := hj 0 s (by omega) (by rw [loop_n])
      have hpc1 := loop_body_aligned s s1 hb hpc h0.1 h0.2
      refine ih s1 sf hpc1 ?_ h
      intro k sk hk hsk
      exact hj (k + 1) sk (by omega) (by rw [loop_n_succ_next k s s1 hb]; exact hsk)
    · rw [hl] at h
      exact absurd h (hb sf)

theorem copy_loop_pc (ep : Nat) (k : Nat) : ∀ (i : Nat) (fp fp1 : List (Fin 256))
    (s s1 : Machine), copy_loop ep k i fp s = .done (s1, fp1) → s1.pc = s.pc := by
  induction k with
  | zero =>
    intro i fp fp1 s s1 h
    rw [copy_loop] at h
    injection h with h1
    injection h1 with h2
    rw [h2]
  | succ k ih =>
    intro i fp fp1 s s1 h
    cases fp with
    | nil => rw [copy_loop] at h; cases h
    | cons c rest =>
      rw [copy_loop] at h
      split at h
      · rw [ih (i + 1) rest fp1 _ s1 h]
        exact (set_byte_frame s (ep + i) c.val).2.1
      · cases h

theorem load_file_pc (ep : Nat) (file : List (Fin 256)) (s s1 : Machine)
    (h : load_file ep file s = .done s1) : s1.pc = s.pc := by
  unfold load_file at h
  split at h
  · rename_i s2 fp1 hc
    split at h
    · cases h
    · injection h with h1
      rw [← h1]
      exact copy_loop_pc ep _ 0 _ fp1 s s2 hc
  · cases h
  · cases h

theorem runsim_done (n : Nat) (bt : Bool) (ep : Nat) (fresh : Nat → Nat)
    (file : List (Fin 256)) (s0 : Machine) (it : Iter)
    (h : runsim n bt ep fresh file s0 = .done it) :
    ∃ s1, load_file ep file (init_env bt ep fresh s0) = .done s1 ∧ s1.pc = ep ∧
      loop_n n s1 = .done it ∧ ∀ k, runsim k bt ep fresh file s0 = loop_n k s1 := by
  unfold runsim at h
  split at h
  · rename_i s1 hl
    refine ⟨s1, hl, ?_, h, ?_⟩
    · rw [load_file_pc ep file _ s1 hl]
      unfold init_env
      rfl
    · intro k
      unfold runsim
      rw [hl]
  · cases h
  · cases h

/-- C17 (as stated, refuted): from the default entry point 0x2000 (a multiple of 4), the
image holding the single word JL r0, 1 (0x80000001) leaves pc = 0x2005 after one executed
pass, and the image holding LI r1, 0x2006 (0x48202006) and JR r0, r1 (0x84010000) leaves
pc = 0x2006 after two. -/
theorem pc_unaligned_after_jump :
    0x2000 % 4 = 0 ∧
    (∃ sf, runsim 1 false 0x2000 (fun _ => 0) [4, 0, 0, 0, 0x01, 0x00, 0x00, 0x80] globals
        = .done (.next sf) ∧ sf.pc = 0x2005 ∧ sf.pc % 4 = 1) ∧
    (∃ sf, runsim 2 false 0x2000 (fun _ => 0)
        [8, 0, 0, 0, 0x06, 0x20, 0x20, 0x48, 0x00, 0x00, 0x01, 0x84] globals
        = .done (.next sf) ∧ sf.pc = 0x2006 ∧ sf.pc % 4 = 2) := by
  refine ⟨by decide, ⟨_, rfl, rfl, rfl⟩, ⟨_, rfl, rfl, rfl⟩⟩

/-- C17 (amended): from an entry point that is a multiple of 4, after any number n of
executed passes of the run loop, none of which executed a JL whose immediate imm_n is not
a multiple of 4 or a JR through a register whose value is not a multiple of 4, the pc is
a multiple of 4 (whether the loop is still running or has been left on the halt code). -/
theorem pc_aligned (n : Nat) (bt : Bool) (ep : Nat) (fresh : Nat → Nat)
    (file : List (Fin 256)) (s0 sf : Machine) (hep : ep % 4 = 0)
    (hj : ∀ k sk, k < n → runsim k bt ep fresh file s0 = .done (.next sk) →
      (opcode (sk.mem (sk.pc >>> 2)) = 32 → imm_n (sk.mem (sk.pc >>> 2)) % 4 = 0) ∧
      (opcode (sk.mem (sk.pc >>> 2)) = 33 → sk.reg (ra (sk.mem (sk.pc >>> 2))) % 4 = 0))
    (hn : runsim n bt ep fresh file s0 = .done (.next sf) ∨
      runsim n bt ep fresh file s0 = .done (.brk sf)) :
    sf.pc % 4 = 0 := by
  rcases hn with hn | hn
  · obtain ⟨s1, _, hpc, hl, hr⟩ := runsim_done n bt ep fresh file s0 _ hn
    refine loop_n_aligned n s1 sf (by rw [hpc]; exact hep) ?_ hl
    intro k sk hk hsk
    exact hj k sk hk (by rw [hr k]; exact hsk)
  · obtain ⟨s1, _, hpc, hl, hr⟩ := runsim_done n bt ep fresh file s0 _ hn
    obtain ⟨m, hm, hnext, _, _⟩ := loop_n_brk_count n s1 sf hl
    refine loop_n_aligned m s1 sf (by rw [hpc]; exact hep) ?_ hnext
    intro k sk hk hsk
    exact hj k sk (by omega) (by rw [hr k]; exact hsk)

/-- C17 (amended) on the image LI r1, 5 ; halt at the entry point 0x2000: the one pass
executed is an LI, and the pc after it, 0x2004, is a multiple of 4. -/
theorem pc_aligned_witness :
    ∃ sf, runsim 1 false 0x2000 (fun _ => 0)
        [8, 0, 0, 0, 0x05, 0x00, 0x20, 0x48, 0xFF, 0xFF, 0xFF, 0xFF] globals
        = .done (.next sf) ∧ sf.pc = 0x2004 ∧ sf.pc % 4 = 0 := by
  have h0 : ∃ S, runsim 0 false 0x2000 (fun _ => 0)
      [8, 0, 0, 0, 0x05, 0x00, 0x20, 0x48, 0xFF, 0xFF, 0xFF, 0xFF] globals = .done (.next S) ∧
      opcode (S.mem (S.pc >>> 2)) = 18 := ⟨_, rfl, rfl⟩
  obtain ⟨S, hS, hop⟩ := h0
  refine ⟨_, rfl, rfl, ?_⟩
  refine pc_aligned 1 false 0x2000 (fun _ => 0)
    [8, 0, 0, 0, 0x05, 0x00, 0x20, 0x48, 0xFF, 0xFF, 0xFF, 0xFF] globals _ (by decide) ?_
    (Or.inl rfl)
  intro k sk hk hsk
  have hk0 : k = 0 := by omega
  subst hk0
  rw [hS] at hsk
  injection hsk with h1
  injection h1 with h2
  subst h2
  rw [hop]
  exact ⟨fun h => absurd h (by decide), fun h => absurd h (by decide)⟩

/-! ## C14 and C15: two-word programs run from the default entry point -/

theorem init_env_words (bt : Bool) (ep : Nat) (fresh : Nat → Nat) (s : Machine) :
    ∀ j, (init_env bt ep fresh s).mem j < 4294967296 := by
  intro j
  have h : (init_env bt ep fresh s).mem j = fresh j % 4294967296 := by
    unfold init_env
    cases bt <;> rfl
  rw [h]
  omega

theorem init_env_frame (bt : Bool) (ep : Nat) (fresh : Nat → Nat) (s : Machine) :
    (init_env bt ep fresh s).pc = ep ∧ (init_env bt ep fresh s).inst_cnt = 0 ∧
    (init_env bt ep fresh s).mem_size = s.mem_size ∧
    (bt = false → (init_env bt ep fresh s).reg 30 = s.mem_size) := by
  unfold init_env
  cases bt
  · refine ⟨rfl, rfl, rfl, fun _ => ?_⟩
    simp [set_reg]
  · refine ⟨rfl, rfl, rfl, fun h => ?_⟩
    cases h

/-- Loading a two-word image at the default entry point puts the two words at word
indices 0x800 and 0x801 and leaves the other globals as `init_env` set them. -/
theorem load_image2 (bt : Bool) (fresh : Nat → Nat) (s0 : Machine) (w0 w1 : Nat)
    (h0 : w0 < 4294967296) (h1 : w1 < 4294967296) (hm : 0x2008 ≤ s0.mem_size) :
    ∃ s1, load_file 0x2000 (image2 w0 w1) (init_env bt 0x2000 fresh s0) = .done s1 ∧
      s1.mem 0x800 = w0 ∧ s1.mem 0x801 = w1 ∧
      s1.reg = (init_env bt 0x2000 fresh s0).reg ∧ s1.pc = 0x2000 ∧
      s1.mem_size = s0.mem_size ∧ s1.inst_cnt = 0 := by
  obtain ⟨hp, hc, hs, _⟩ := init_env_frame bt 0x2000 fresh s0
  obtain ⟨s1, e1, e2, e3, e4, e5, e6, e7⟩ :=
    load_file_ok 0x2000 8 8 0 0 0 (le_bytes w0 ++ le_bytes w1) (init_env bt 0x2000 fresh s0)
      rfl (by rw [hs]; omega) rfl
  have hw := e6 (init_env_words bt 0x2000 fresh s0)
  have a0 : byte_of (s1.mem 0x800) 0 = w0 % 256 := by
    have e := e7 0x2000; rw [if_pos (by decide)] at e; exact e
  have a1 : byte_of (s1.mem 0x800) 1 = w0 / 256 % 256 := by
    have e := e7 0x2001; rw [if_pos (by decide)] at e; exact e
  have a2 : byte_of (s1.mem 0x800) 2 = w0 / 65536 % 256 := by
    have e := e7 0x2002; rw [if_pos (by decide)] at e; exact e
  have a3 : byte_of (s1.mem 0x800) 3 = w0 / 16777216 % 256 := by
    have e := e7 0x2003; rw [if_pos (by decide)] at e; exact e
  have b0 : byte_of (s1.mem 0x801) 0 = w1 % 256 := by
    have e := e7 0x2004; rw [if_pos (by decide)] at e; exact e
  have b1 : byte_of (s1.mem 0x801) 1 = w1 / 256 % 256 := by
    have e := e7 0x2005; rw [if_pos (by decide)] at e; exact e
  have b2 : byte_of (s1.mem 0x801) 2 = w1 / 65536 % 256 := by
    have e := e7 0x2006; rw [if_pos (by decide)] at e; exact e
  have b3 : byte_of (s1.mem 0x801) 3 = w1 / 16777216 % 256 := by
    have e := e7 0x2007; rw [if_pos (by decide)] at e; exact e
  have c0 := word_of_bytes (s1.mem 0x800) (hw 0x800)
  have c1 := word_of_bytes (s1.mem 0x801) (hw 0x801)
  rw [a0, a1, a2, a3] at c0
  rw [b0, b1, b2, b3] at c1
  refine ⟨s1, e1, by omega, by omega, e2, by rw [e3, hp], by rw [e4, hs], by rw [e5, hc]⟩

theorem loop_n_halt (n : Nat) (s : Machine) (hm : s.mem_size % 4 = 0)
    (hpc : s.pc < s.mem_size) (hw : s.mem (s.pc >>> 2) = 0xFFFFFFFF) :
    loop_n (n + 1) s = .done (.brk s) := by
  rw [loop_n, loop_body_halt s hm hpc hw]

/-- The word LI r, v: its fields. -/
theorem li_word_fields (r : Nat) (v : Int) (hr : r < 32) (hv1 : -1048576 ≤ v)
    (hv2 : v < 1048576) :
    opcode (18 * 2 ^ 26 + r * 2 ^ 21 + (v % 2097152).toNat) = 18 ∧
    rx (18 * 2 ^ 26 + r * 2 ^ 21 + (v % 2097152).toNat) = r ∧
    imm_n (18 * 2 ^ 26 + r * 2 ^ 21 + (v % 2097152).toNat) = v ∧
    18 * 2 ^ 26 + r * 2 ^ 21 + (v % 2097152).toNat < 4294967296 := by
  refine ⟨?_, ?_, ?_, ?_⟩
  · unfold opcode; rw [Nat.shiftRight_eq_div_pow]; omega
  · unfold rx; rw [and_31, Nat.shiftRight_eq_div_pow]; omega
  · rw [imm_n_eq]; push_cast; omega
  · omega

/-- C15: for every register index r < 32, every v in [-2^20, 2^20) and every content of
the fresh memory block, the run of the image [LI r, v ; 0xFFFFFFFF] from the initial
globals (entry point 0x2000, memory size 0x400000) leaves the loop on the halt code at
its second pass, with reg[r] = v as a 32-bit value, instruction count 1 and pc 0x2004;
the same with any larger bound on the number of passes. -/
theorem run_li_halt (r : Nat) (v : Int) (n : Nat) (fresh : Nat → Nat) (hr : r < 32)
    (hv1 : -1048576 ≤ v) (hv2 : v < 1048576) :
    opcode (18 * 2 ^ 26 + r * 2 ^ 21 + (v % 2097152).toNat) = LI ∧
    rx (18 * 2 ^ 26 + r * 2 ^ 21 + (v % 2097152).toNat) = r ∧
    imm_n (18 * 2 ^ 26 + r * 2 ^ 21 + (v % 2097152).toNat) = v ∧
    ∃ sf, runsim (n + 2) false 0x2000 fresh
        (image2 (18 * 2 ^ 26 + r * 2 ^ 21 + (v % 2097152).toNat) 0xFFFFFFFF) globals
        = .done (.brk sf) ∧
      sf.reg r = (v % 4294967296).toNat ∧ sf.inst_cnt = 1 ∧ sf.pc = 0x2004 := by
  obtain ⟨ho, hx, hi, hlt⟩ := li_word_fields r v hr hv1 hv2
  have hne : 18 * 2 ^ 26 + r * 2 ^ 21 + (v % 2097152).toNat ≠ 0xFFFFFFFF := by omega
  refine ⟨by rw [ho]; decide, hx, hi, ?_⟩
  generalize 18 * 2 ^ 26 + r * 2 ^ 21 + (v % 2097152).toNat = w at ho hx hi hlt hne
  obtain ⟨s1, hl, hw0, hw1, hreg, hpc, hms, hcnt⟩ :=
    load_image2 false fresh globals w 0xFFFFFFFF hlt (by decide)
      (by show 0x2008 ≤ 0x400000; decide)
  have hms1 : s1.mem_size = 0x400000 := hms
  have hfetch : s1.mem (s1.pc >>> 2) = w := by rw [hpc]; exact hw0
  have hexec : exec s1 w = .done (set_reg s1 r (u32 v), 0) := by
    rcases exec_shape s1 w with ⟨h, _⟩ | ⟨h, _⟩ | ⟨_, h⟩ | h | h | h | ⟨h, _⟩ | ⟨h, _⟩
    · omega
    · omega
    · rw [h, if_pos ho, hx, hi]
    · omega
    · omega
    · omega
    · omega
    · rw [unknown_op_iff] at h; omega
  have hbody := loop_body_exec s1 (set_reg s1 r (u32 v)) 0 (by rw [hms1]) (by rw [hpc, hms1]; decide)
    (by rw [hfetch]; exact hne) (by rw [hfetch]; exact hexec)
  rw [if_pos rfl] at hbody
  have hbody2 : loop_body s1
      = .done (.next { set_pc (set_reg s1 r (u32 v)) 0x2004 with inst_cnt := 1 }) := by
    rw [hbody]
    simp [set_pc, set_reg, hpc, hcnt]
  refine ⟨{ set_pc (set_reg s1 r (u32 v)) 0x2004 with inst_cnt := 1 }, ?_, ?_, rfl, rfl⟩
  · unfold runsim
    rw [hl]
    show loop_n (n + 1 + 1) s1 = _
    rw [loop_n_succ_next (n + 1) s1 _ hbody2]
    have hS1 : ({ set_pc (set_reg s1 r (u32 v)) 0x2004 with inst_cnt := 1 } : Machine).mem_size
        = s1.mem_size := rfl
    have hS2 : ({ set_pc (set_reg s1 r (u32 v)) 0x2004 with inst_cnt := 1 } : Machine).pc
        = 0x2004 := rfl
    have hS3 : ({ set_pc (set_reg s1 r (u32 v)) 0x2004 with inst_cnt := 1 } : Machine).mem
        = s1.mem := rfl
    exact loop_n_halt n _ (by rw [hS1]; omega) (by rw [hS2, hS1]; omega)
      (by rw [hS2, hS3]; exact hw1)
  · simp [set_pc, set_reg, u32]

/-- C15 for LI r1, 5 (the image 08 00 00 00 05 00 20 48 FF FF FF FF) on a zeroed block:
the run stops with r1 = 5, instruction count 1 and pc = 0x2004. -/
theorem run_li_halt_witness :
    ∃ sf, runsim 2 false 0x2000 (fun _ => 0) (image2 0x48200005 0xFFFFFFFF) globals
        = .done (.brk sf) ∧ sf.reg 1 = 5 ∧ sf.inst_cnt = 1 ∧ sf.pc = 0x2004 :=
  (run_li_halt 1 5 0 (fun _ => 0) (by decide) (by decide) (by decide)).2.2.2

/-- The run loop on an untaken JEQ r30 at pc 0x2000 never moves: every pass returns to the
same pc with the count increased by 1. -/
theorem loop_n_untaken (n : Nat) : ∀ s : Machine, s.pc = 0x2000 → s.mem_size = 0x400000 →
    s.mem 0x800 = 0xA01E0000 → s.reg 30 = 0x400000 →
    ∃ sf, loop_n n s = .done (.next sf) ∧ sf.pc = 0x2000 ∧ sf.inst_cnt = s.inst_cnt + n ∧
      sf.reg = s.reg ∧ sf.mem = s.mem ∧ sf.mem_size = s.mem_size := by
  induction n with
  | zero =>
    intro s hpc _ _ _
    exact ⟨s, by rw [loop_n], hpc, by simp, rfl, rfl, rfl⟩
  | succ n ih =>
    intro s hpc hms hw hr
    have hfetch : s.mem (s.pc >>> 2) = 0xA01E0000 := by rw [hpc]; exact hw
    have hra : s.reg (ra 0xA01E0000) = 0x400000 := hr
    have hexec : exec s 0xA01E0000 = .done (s, 1) := by
      rw [exec_branch_eq s 0xA01E0000 (by decide), hra]
      rfl
    have hbody := loop_body_exec s s 1 (by rw [hms]) (by rw [hpc, hms]; decide)
      (by rw [hfetch]; decide) (by rw [hfetch]; exact hexec)
    rw [if_neg (by decide)] at hbody
    obtain ⟨sf, h1, h2, h3, h4, h5, h6⟩ :=
      ih { s with inst_cnt := s.inst_cnt + 1 } hpc hms hw hr
    refine ⟨sf, ?_, h2, ?_, h4, h5, h6⟩
    · rw [loop_n_succ_next n s _ hbody]
      exact h1
    · rw [h3]
      push_cast
      omega

/-- C14 (evaluation of the code): the image [JEQ r30 ; 0xFFFFFFFF] (JEQ r30 is the word
0xA01E0000; r30 is initialised to the memory size 0x400000, so the branch is not taken)
run from the initial globals: whatever the number n of passes, the loop is still running
after them, at pc = 0x2000 and with instruction count n; the halt code at 0x2004 is never
fetched. -/
theorem run_untaken_branch_loops (n : Nat) (fresh : Nat → Nat) :
    opcode 0xA01E0000 = JEQ ∧ ra 0xA01E0000 = 30 ∧
    ∃ sf, runsim n false 0x2000 fresh (image2 0xA01E0000 0xFFFFFFFF) globals
        = .done (.next sf) ∧
      sf.pc = 0x2000 ∧ sf.inst_cnt = n ∧ sf.reg 30 = 0x400000 ∧
      sf.mem 0x800 = 0xA01E0000 ∧ sf.mem 0x801 = 0xFFFFFFFF := by
  obtain ⟨s1, hl, hw0, hw1, hreg, hpc, hms, hcnt⟩ :=
    load_image2 false fresh globals 0xA01E0000 0xFFFFFFFF (by decide) (by decide)
      (by show 0x2008 ≤ 0x400000; decide)
  have h30 : s1.reg 30 = 0x400000 := by
    rw [hreg]
    exact (init_env_frame false 0x2000 fresh globals).2.2.2 rfl
  obtain ⟨sf, h1, h2, h3, h4, h5, h6⟩ := loop_n_untaken n s1 hpc hms hw0 h30
  refine ⟨by decide, by decide, sf, ?_, h2, by rw [h3, hcnt]; simp, by rw [h4]; exact h30,
    by rw [h5]; exact hw0, by rw [h5]; exact hw1⟩
  unfold runsim
  rw [hl]
  exact h1

end Aqua
